import Mathlib

/-!
Verification of `django_sorcery/db/relations.py`: a declarative layer that
defers creation of foreign-key columns, constraints and association tables for
one-to-many, many-to-one and many-to-many relationships until all model
classes are declared, at which point a `declare_first` signal handler resolves
the pending relationships.

The embedding mirrors the Python module: keyword-argument and `info`
dictionaries become association lists with Python dict semantics (insertion
order preserved, assignment overwrites in place), SQLAlchemy tables, columns
and constraints become explicit structures, and the mutable class/metadata
state becomes a `DBState` threaded through the functions.  Fallible paths
(`KeyError`, `sa.exc.ArgumentError`, duplicate table definitions) return
`Except String`.
-/

set_option autoImplicit false

namespace DjangoSorcery

/-- `s == ""` (Python falsiness of a string), via the character list so that
it evaluates by kernel reduction. -/
def strEmpty (s : String) : Bool := s.data.isEmpty

/-- Python `s.startswith(pre)`, via the character lists. -/
def strStarts (s pre : String) : Bool := pre.data.isPrefixOf s.data

/-- Python `s[n:]` (drop the first `n` characters). -/
def strDrop (s : String) (n : Nat) : String := ⟨s.data.drop n⟩

/-- Python `s.lower()` (ASCII case folding, which covers identifiers). -/
def strLower (s : String) : String := ⟨s.data.map Char.toLower⟩

/-- Values carried by keyword-argument and `info` dictionaries. -/
inductive Val where
  | vstr : String → Val
  | vbool : Bool → Val
  | vnone : Val
deriving DecidableEq, Repr

/-- Python truthiness of a dict value. -/
def Val.truthy : Val → Bool
  | .vstr s => !(strEmpty s)
  | .vbool b => b
  | .vnone => false

/-- String conversion of a dict value (Python `str`). -/
def Val.asStr : Val → String
  | .vstr s => s
  | .vbool b => if b then "True" else "False"
  | .vnone => "None"

/-- A Python dict with string keys, as an insertion-ordered association list
with unique keys. -/
abbrev Dict := List (String × Val)

/-- `d.get(k)`. -/
def dGet (d : Dict) (k : String) : Option Val :=
  (d.find? (fun p => p.1 = k)).map (fun p => p.2)

/-- `k in d`. -/
def dHas (d : Dict) (k : String) : Bool :=
  (d.find? (fun p => p.1 = k)).isSome

/-- `d[k] = v`: overwrite in place if the key exists, else append. -/
def dSet (d : Dict) (k : String) (v : Val) : Dict :=
  if dHas d k then d.map (fun p => if p.1 = k then (k, v) else p) else d ++ [(k, v)]

/-- `d.update(e)`. -/
def dUpdate (d e : Dict) : Dict :=
  e.foldl (fun acc p => dSet acc p.1 p.2) d

/-- `d.pop(k, default)` restricted to the removal part. -/
def dDrop (d : Dict) (k : String) : Dict :=
  d.filter (fun p => p.1 ≠ k)

/-- A SQLAlchemy column: name, type (as a tag), nullability, primary-key flag,
and the mapped class attribute name (`mapper.get_property_by_column(col).key`). -/
structure Column where
  name : String
  ctype : String
  nullable : Bool
  primaryKey : Bool
  attrKey : String
deriving DecidableEq, Repr

/-- A `sa.ForeignKeyConstraint`: constrained column names, referenced table
name, referenced column names (positional), and extra keyword arguments. -/
structure FKConstraint where
  columns : List String
  refTable : String
  refColumns : List String
  kwargs : Dict
deriving DecidableEq, Repr

/-- A `sa.Table`: name, optional schema, ordered columns, appended
constraints, and extra keyword arguments. -/
structure Table where
  name : String
  schema : Option String
  columns : List Column
  constraints : List FKConstraint
  kwargs : Dict
deriving DecidableEq, Repr

/-- `table.primary_key`: the primary-key columns in column order. -/
def Table.primaryKey (t : Table) : List Column :=
  t.columns.filter (fun c => c.primaryKey)

/-- The key of a table in `MetaData.tables`: `schema.name` when a schema is
set, otherwise the bare name (SQLAlchemy keys tables this way). -/
def Table.key (t : Table) : String :=
  match t.schema with
  | some s => s ++ "." ++ t.name
  | none => t.name

/-- `name in table.columns`. -/
def Table.hasCol (t : Table) (n : String) : Bool :=
  t.columns.any (fun c => c.name = n)

/-- `table.columns[name]`, fallible. -/
def Table.getCol (t : Table) (n : String) : Option Column :=
  t.columns.find? (fun c => c.name = n)

/-- `MetaData.tables`, keyed by `Table.key`. -/
abbrev MetaData := List Table

/-- `metadata.tables.get(k)`. -/
def tablesGet (md : MetaData) (k : String) : Option Table :=
  md.find? (fun t => t.key = k)

/-- `sa.orm.interfaces` relationship directions. -/
inductive Direction where
  | ONETOMANY
  | MANYTOONE
  | MANYTOMANY
deriving DecidableEq, Repr

/-- The value stored under the `backref` keyword after builder processing:
either a name/kwargs pair — modelling both the `(name, kwargs)` tuple stored
by `OneToMany` and the `sa.orm.backref` object stored by `ManyToOne` and
`ManyToMany`, whose only use in this module is reading the name and kwargs —
or the falsy raw value (an empty string) that the builders leave untouched. -/
inductive BackrefVal where
  | pair : String → Dict → BackrefVal
  | falsyRaw : BackrefVal
deriving DecidableEq, Repr

/-- Python truthiness of the stored backref value (a tuple is truthy even
with an empty name; the raw leftover is the falsy case by construction). -/
def BackrefVal.truthy : BackrefVal → Bool
  | .pair _ _ => true
  | .falsyRaw => false

/-- The `backref` argument as supplied by the caller: a plain name or a
`(name, kwargs)` tuple. -/
inductive BackrefArg where
  | plain : String → BackrefArg
  | tup : String → Dict → BackrefArg
deriving DecidableEq, Repr

/-- Python truthiness of the caller-supplied backref argument. -/
def BackrefArg.truthy : BackrefArg → Bool
  | .plain n => !(strEmpty n)
  | .tup _ _ => true

/-- A relationship descriptor as built by the three builders: attribute key,
remote class name, direction, `info` dict, `uselist`, processed backref,
`secondary`, `_user_defined_foreign_keys`, and the remaining keyword
arguments handed to `sa.orm.relationship`. -/
structure Relation where
  key : String
  remote : String
  direction : Direction
  info : Dict
  uselist : Bool
  backref : Option BackrefVal
  secondary : Option Table
  userFKs : List Column
  passedKwargs : Dict
deriving DecidableEq, Repr

/-- A declarative model class: name, the key of its table in the metadata,
its Python attribute names (`hasattr`), the pending `_relationships` set, and
the resolved relationship properties retained by the mapper. -/
structure ModelClass where
  name : String
  tableKey : String
  attrs : List String
  rels : List Relation
  done : List Relation
deriving DecidableEq, Repr

/-- The mutable world: declared classes and the shared `MetaData`. -/
structure DBState where
  classes : List ModelClass
  metadata : MetaData
deriving DecidableEq, Repr

/-- Look a class up by name. -/
def DBState.getClass (st : DBState) (n : String) : Option ModelClass :=
  st.classes.find? (fun c => c.name = n)

/-- Store an updated class back (by name). -/
def DBState.setClass (st : DBState) (c : ModelClass) : DBState :=
  { st with classes := st.classes.map (fun x => if x.name = c.name then c else x) }

/-- Store an updated table back under its metadata key. -/
def DBState.setTable (st : DBState) (k : String) (t : Table) : DBState :=
  { st with metadata := st.metadata.map (fun x => if x.key = k then t else x) }

/-- The keyword arguments of a builder call: the generic string-keyed ones
(including `fk_*` and `table_*` options), the `info` dict, the `backref`
argument, and — because `ManyToMany` tests whether the key `secondary` is
present in kwargs — an explicit record of whether `secondary` was passed and
with which value. -/
structure Kwargs where
  pairs : Dict
  info : Dict
  backref : Option BackrefArg
  secondaryGiven : Option (Option Table)
deriving DecidableEq, Repr

/-- `RelationsMixin._get_kwargs_for_relation`: pop every key with the given
leading pattern out of `kwargs`, returning the popped entries and what is
left, both in original order. -/
def _get_kwargs_for_relation (kwargs : Dict) (pre : String := "fk_") : Dict × Dict :=
  (kwargs.filter (fun p => strStarts p.1 pre),
   kwargs.filter (fun p => !(strStarts p.1 pre)))

/-- Backref processing shared by the three builders: a truthy backref is
normalised to a name/kwargs pair whose kwargs get `uselist` forced to `ul`;
a falsy backref is left untouched. -/
def processBackref (ul : Bool) : Option BackrefArg → Option BackrefVal
  | none => none
  | some a =>
    if a.truthy then
      match a with
      | .plain n => some (.pair n (dSet [] "uselist" (.vbool ul)))
      | .tup n bkw => some (.pair n (dSet bkw "uselist" (.vbool ul)))
    else some .falsyRaw

/-- Evaluation of the `declared_attr` returned by `OneToMany` on a class:
move `fk_*` kwargs into `info`, force `uselist=True` (and `uselist=False` on
the backref), build the relationship with direction `ONETOMANY` and add it to
the class's pending `_relationships`. -/
def o2m_eval (key remote_cls : String) (kw : Kwargs) (cls : ModelClass) :
    ModelClass × Relation :=
  let fkOpts := (_get_kwargs_for_relation kw.pairs).1
  let rest := (_get_kwargs_for_relation kw.pairs).2
  let rel : Relation :=
    { key := key
      remote := remote_cls
      direction := .ONETOMANY
      info := dUpdate kw.info fkOpts
      uselist := true
      backref := processBackref false kw.backref
      secondary := match kw.secondaryGiven with | some v => v | none => none
      userFKs := []
      passedKwargs := dSet rest "uselist" (.vbool true) }
  ({ cls with rels := cls.rels ++ [rel] }, rel)

/-- Evaluation of the `declared_attr` returned by `ManyToOne`: as `OneToMany`
but with `uselist=False` on the relation, `uselist=True` on the backref and
direction `MANYTOONE`. -/
def m2o_eval (key remote_cls : String) (kw : Kwargs) (cls : ModelClass) :
    ModelClass × Relation :=
  let fkOpts := (_get_kwargs_for_relation kw.pairs).1
  let rest := (_get_kwargs_for_relation kw.pairs).2
  let rel : Relation :=
    { key := key
      remote := remote_cls
      direction := .MANYTOONE
      info := dUpdate kw.info fkOpts
      uselist := false
      backref := processBackref true kw.backref
      secondary := match kw.secondaryGiven with | some v => v | none => none
      userFKs := []
      passedKwargs := dSet rest "uselist" (.vbool false) }
  ({ cls with rels := cls.rels ++ [rel] }, rel)

/-- The `sa.exc.ArgumentError` message raised by `ManyToMany.m2m`. -/
def m2mArgError : String :=
  "You need to provide secondary or table_name for the relation for the association table that will be generated"

/-- Evaluation of the `declared_attr` returned by `ManyToMany`: raise an
`ArgumentError` when neither `secondary` nor `table_name` was given;
otherwise move `fk_*` and `table_*` kwargs into `info`, record a truthy
`table_name` in `info`, force `uselist=True` on relation and backref, build
the relationship with direction `MANYTOMANY` and register it as pending. -/
def m2m_eval (key remote_cls : String) (table_name : Option String) (kw : Kwargs)
    (cls : ModelClass) : Except String (ModelClass × Relation) :=
  if kw.secondaryGiven.isNone && table_name.isNone then
    .error m2mArgError
  else
    let fkOpts := (_get_kwargs_for_relation kw.pairs).1
    let rest1 := (_get_kwargs_for_relation kw.pairs).2
    let tblOpts := (_get_kwargs_for_relation rest1 "table_").1
    let rest := (_get_kwargs_for_relation rest1 "table_").2
    let info0 := dUpdate (dUpdate kw.info fkOpts) tblOpts
    let info :=
      match table_name with
      | some tn => if strEmpty tn then info0 else dSet info0 "table_name" (.vstr tn)
      | none => info0
    let rel : Relation :=
      { key := key
        remote := remote_cls
        direction := .MANYTOMANY
        info := info
        uselist := true
        backref := processBackref true kw.backref
        secondary := match kw.secondaryGiven with | some v => v | none => none
        userFKs := []
        passedKwargs := dSet rest "uselist" (.vbool true) }
    .ok ({ cls with rels := cls.rels ++ [rel] }, rel)

/-- `RelationsMixin.OneToMany`: returns the lazily-evaluated declarative
attribute, a function awaiting the attribute key and the declaring class. -/
def OneToMany (remote_cls : String) (kw : Kwargs) :
    String → ModelClass → ModelClass × Relation :=
  fun key cls => o2m_eval key remote_cls kw cls

/-- `RelationsMixin.ManyToOne`: returns the lazily-evaluated declarative
attribute. -/
def ManyToOne (remote_cls : String) (kw : Kwargs) :
    String → ModelClass → ModelClass × Relation :=
  fun key cls => m2o_eval key remote_cls kw cls

/-- `RelationsMixin.ManyToMany`: returns the lazily-evaluated declarative
attribute, whose evaluation can raise. -/
def ManyToMany (remote_cls : String) (table_name : Option String) (kw : Kwargs) :
    String → ModelClass → Except String (ModelClass × Relation) :=
  fun key cls => m2m_eval key remote_cls table_name kw cls

/-- Declarative evaluation of a `OneToMany` attribute on a class of the
state (what happens when the class body is mapped). -/
def declareAttrOneToMany (st : DBState) (clsName key remote_cls : String)
    (kw : Kwargs) : Except String DBState :=
  match st.getClass clsName with
  | none => .error "unknown class"
  | some cls => .ok (st.setClass (OneToMany remote_cls kw key cls).1)

/-- Declarative evaluation of a `ManyToOne` attribute on a class of the
state. -/
def declareAttrManyToOne (st : DBState) (clsName key remote_cls : String)
    (kw : Kwargs) : Except String DBState :=
  match st.getClass clsName with
  | none => .error "unknown class"
  | some cls => .ok (st.setClass (ManyToOne remote_cls kw key cls).1)

/-- Declarative evaluation of a `ManyToMany` attribute on a class of the
state. -/
def declareAttrManyToMany (st : DBState) (clsName key remote_cls : String)
    (table_name : Option String) (kw : Kwargs) : Except String DBState :=
  match st.getClass clsName with
  | none => .error "unknown class"
  | some cls =>
    match ManyToMany remote_cls table_name kw key cls with
    | .error e => .error e
    | .ok res => .ok (st.setClass res.1)

/-- `"_".join(filter(None, parts))`: join the non-empty parts with
underscores. -/
def joinUnderscore : List String → String
  | [] => ""
  | [a] => a
  | a :: rest => a ++ "_" ++ joinUnderscore rest

/-- `"_".join(filter(None, parts))` continued: drop the empty parts first. -/
def joinNonEmpty (parts : List String) : String :=
  joinUnderscore (parts.filter (fun s => !(strEmpty s)))

/-- The entries of `d` with the given leading pattern, with `n` characters
cut off the front of each key (the dict comprehensions over `relation.info`
in `_add_foreign_keys` and `_add_association_table`). -/
def stripKeys (d : Dict) (pre : String) (n : Nat) : Dict :=
  (d.filter (fun p => strStarts p.1 pre)).map (fun p => (strDrop p.1 n, p.2))

/-- The default `fk_key` when none was supplied: the relation key lowercased
for many-to-one, else the backref name lowercased when the backref is
truthy, else the parent class name lowercased. -/
def defaultFkKey (rel : Relation) (parentClsName : String) : String :=
  if rel.direction = .MANYTOONE then strLower rel.key
  else
    match rel.backref with
    | some (.pair n _) => strLower n
    | _ => strLower parentClsName

/-- The `fk_*` options of `_add_foreign_keys`: the attribute name front
piece, nullability, the effective `fk_key`, and the leftover options handed
to `sa.ForeignKeyConstraint`. -/
def fkOptions (rel : Relation) (parentClsName : String) : String × Bool × String × Dict :=
  let fkd := stripKeys rel.info "fk_" 3
  let fkPre := match dGet fkd "prefix" with | some v => v.asStr | none => "_"
  let nul := match dGet fkd "nullable" with | some v => v.truthy | none => true
  let fkKey :=
    match dGet fkd "key" with
    | some v => if v.truthy then v.asStr else defaultFkKey rel parentClsName
    | none => defaultFkKey rel parentClsName
  (fkPre, nul, fkKey, dDrop (dDrop (dDrop fkd "prefix") "nullable") "key")

/-- `hasattr(cls, a)` over the modelled attribute list. -/
def hasAttr (attrs : List String) (a : String) : Bool :=
  attrs.any (fun s => s = a)

/-- `col_name = "_".join(filter(None, [fk_key, pk_column.name]))`. -/
def fkColName (fkKey : String) (pk : Column) : String :=
  joinNonEmpty [fkKey, pk.name]

/-- The Python attribute name of a generated foreign-key column. -/
def fkAttrName (fkPre fkKey : String) (pk : Column) : String :=
  fkPre ++ joinNonEmpty [fkKey, pk.attrKey]

/-- The foreign-key column generated for a primary-key column. -/
def mkFkCol (fkKey fkPre : String) (nul : Bool) (pk : Column) : Column :=
  { name := fkColName fkKey pk
    ctype := pk.ctype
    nullable := nul
    primaryKey := false
    attrKey := fkAttrName fkPre fkKey pk }

/-- The per-primary-key-column loop of `_add_foreign_keys`, threading the
target table, the target class attributes, the ordered pk/fk column pairs
(the `cols` dict) and the `cols_created` flag.  A column name that is absent
from the table while the attribute exists reproduces the `KeyError` of
`cls.__table__.columns[col_name]`. -/
def fkLoop (fkKey fkPre : String) (nul : Bool) (tbl : Table) (attrs : List String)
    (cols : List (Column × Column)) (created : Bool) :
    List Column → Except String (Table × List String × List (Column × Column) × Bool)
  | [] => .ok (tbl, attrs, cols, created)
  | pk :: rest =>
    let colName := fkColName fkKey pk
    let attrName := fkAttrName fkPre fkKey pk
    if !tbl.hasCol colName && !(hasAttr attrs attrName) then
      let c := mkFkCol fkKey fkPre nul pk
      fkLoop fkKey fkPre nul { tbl with columns := tbl.columns ++ [c] }
        (attrs ++ [attrName]) (cols ++ [(pk, c)]) true rest
    else
      match tbl.getCol colName with
      | some c => fkLoop fkKey fkPre nul tbl attrs (cols ++ [(pk, c)]) created rest
      | none => .error "KeyError"

/-- `_add_foreign_keys(cls, parent_cls, relation)`: generate on `cls` one
foreign-key column per primary-key column of `parent_cls`, record the pk→fk
map on the relation, and append a `ForeignKeyConstraint` when any column was
created. -/
def _add_foreign_keys (st : DBState) (clsName parentName : String) (rel : Relation) :
    Except String (DBState × Relation) :=
  match st.getClass clsName, st.getClass parentName with
  | some cls, some parent =>
    match tablesGet st.metadata cls.tableKey, tablesGet st.metadata parent.tableKey with
    | some clsTable, some parentTable =>
      let opts := fkOptions rel parent.name
      match fkLoop opts.2.2.1 opts.1 opts.2.1 clsTable cls.attrs [] false
          parentTable.primaryKey with
      | .error e => .error e
      | .ok (tbl1, attrs1, cols, created) =>
        let rel1 := { rel with userFKs := cols.map (fun p => p.2) }
        let tbl2 :=
          if created then
            { tbl1 with constraints := tbl1.constraints ++
              [{ columns := cols.map (fun p => p.2.name)
                 refTable := parentTable.name
                 refColumns := cols.map (fun p => p.1.name)
                 kwargs := opts.2.2.2 }] }
          else tbl1
        .ok ((st.setTable cls.tableKey tbl2).setClass { cls with attrs := attrs1 }, rel1)
    | _, _ => .error "missing table"
  | _, _ => .error "unknown class"

/-- A column of the generated association table: named after the owning
table (lowercased) and the primary-key column, same type, primary key. -/
def assocCol (t : Table) (pk : Column) : Column :=
  { name := joinNonEmpty [strLower t.name, pk.name]
    ctype := pk.ctype
    nullable := false
    primaryKey := true
    attrKey := joinNonEmpty [strLower t.name, pk.name] }

/-- One step of building the `column_map` dict of `_add_association_table`:
`column_map.setdefault(pk_column.table, []).append(col)`, with tables
compared by their metadata key. -/
def cmapStep (m : List (Table × List Column)) (p : Table × Column) :
    List (Table × List Column) :=
  let col := assocCol p.1 p.2
  if m.any (fun q => q.1.key = p.1.key) then
    m.map (fun q => if q.1.key = p.1.key then (q.1, q.2 ++ [col]) else q)
  else m ++ [(p.1, [col])]

/-- The association table built from the `column_map`. -/
def buildAssocTable (tn : String) (schema : Option String) (fkOpts tblOpts : Dict)
    (cmap : List (Table × List Column)) : Table :=
  { name := tn
    schema := schema
    columns := (cmap.map (fun q => q.2)).flatten
    constraints := cmap.map (fun q =>
      { columns := q.2.map (fun c => c.name)
        refTable := q.1.name
        refColumns := q.1.primaryKey.map (fun c => c.name)
        kwargs := fkOpts })
    kwargs := tblOpts }

/-- `_add_association_table(cls, child_cls, relation)`: nothing to do when a
secondary is already present; otherwise reuse a metadata table found under
the bare `table_name`, and failing that synthesize the association table in
the shared metadata with the declaring table's schema.  Creating a table
whose metadata key already exists raises, as `sa.Table` does. -/
def _add_association_table (st : DBState) (clsName childName : String) (rel : Relation) :
    Except String (DBState × Relation) :=
  if rel.secondary.isSome then .ok (st, rel)
  else
    let tn? := dGet rel.info "table_name"
    let found :=
      match tn? with
      | some (.vstr tn) => tablesGet st.metadata tn
      | _ => none
    match found with
    | some t => .ok (st, { rel with secondary := some t })
    | none =>
      match tn? with
      | some (.vstr tn) =>
        match st.getClass clsName, st.getClass childName with
        | some cls, some child =>
          match tablesGet st.metadata cls.tableKey, tablesGet st.metadata child.tableKey with
          | some clsTable, some childTable =>
            let fkOpts := stripKeys rel.info "fk_" 3
            let tblOpts := dDrop (stripKeys rel.info "table_" 6) "name"
            let pkSeq := clsTable.primaryKey.map (fun c => (clsTable, c)) ++
              childTable.primaryKey.map (fun c => (childTable, c))
            let cmap := pkSeq.foldl cmapStep []
            let newTable := buildAssocTable tn clsTable.schema fkOpts tblOpts cmap
            if (tablesGet st.metadata newTable.key).isSome then
              .error "Table is already defined for this MetaData instance"
            else
              .ok ({ st with metadata := st.metadata ++ [newTable] },
                { rel with secondary := some newTable })
          | _, _ => .error "missing table"
        | _, _ => .error "unknown class"
      | _ => .error "association table requires a string table name"

/-- Resolution of one pending relationship by direction, after resolving the
remote class (`relation.mapper.class_`): one-to-many adds foreign keys to
the remote class referencing the declaring class, many-to-one adds them to
the declaring class referencing the remote class, many-to-many synthesizes
the association table. -/
def resolveOne (st : DBState) (clsName : String) (rel : Relation) :
    Except String (DBState × Relation) :=
  match st.getClass rel.remote with
  | none => .error "unresolved remote class"
  | some remote =>
    match rel.direction with
    | .ONETOMANY => _add_foreign_keys st remote.name clsName rel
    | .MANYTOONE => _add_foreign_keys st clsName remote.name rel
    | .MANYTOMANY => _add_association_table st clsName remote.name rel

/-- Resolve a list of pending relationships in order, collecting the updated
relationship descriptors. -/
def resolveAll (clsName : String) : DBState → List Relation →
    Except String (DBState × List Relation)
  | st, [] => .ok (st, [])
  | st, r :: rest =>
    match resolveOne st clsName r with
    | .error e => .error e
    | .ok (st1, r1) =>
      match resolveAll clsName st1 rest with
      | .error e => .error e
      | .ok (st2, rs) => .ok (st2, r1 :: rs)

/-- `declare_first_relationships_handler(cls)`: resolve every pending
relationship of the class by direction, then clear the pending set (the
resolved descriptors stay on the mapper, modelled by `done`). -/
def declare_first_relationships_handler (st : DBState) (clsName : String) :
    Except String DBState :=
  match st.getClass clsName with
  | none => .error "unknown class"
  | some cls =>
    match resolveAll clsName st cls.rels with
    | .error e => .error e
    | .ok (st1, resolved) =>
      match st1.getClass clsName with
      | none => .error "unknown class"
      | some c1 => .ok (st1.setClass { c1 with rels := [], done := c1.done ++ resolved })

instance {ε α : Type} [DecidableEq ε] [DecidableEq α] : DecidableEq (Except ε α)
  | .error a, .error b =>
    decidable_of_iff (a = b)
      ⟨fun h => by rw [h], fun h => by injection h⟩
  | .error _, .ok _ => .isFalse (fun h => Except.noConfusion h)
  | .ok _, .error _ => .isFalse (fun h => Except.noConfusion h)
  | .ok a, .ok b =>
    decidable_of_iff (a = b)
      ⟨fun h => by rw [h], fun h => by injection h⟩

/-! ### Dictionary lemmas -/

theorem dGet_cons (p : String × Val) (d : Dict) (k : String) :
    dGet (p :: d) k = if p.1 = k then some p.2 else dGet d k := by
  by_cases h : p.1 = k <;> simp [dGet, List.find?_cons, h]

theorem dHas_cons (p : String × Val) (d : Dict) (k : String) :
    dHas (p :: d) k = if p.1 = k then true else dHas d k := by
  by_cases h : p.1 = k <;> simp [dHas, List.find?_cons, h]

theorem dGet_append (d e : Dict) (k : String) :
    dGet (d ++ e) k = match dGet d k with | some v => some v | none => dGet e k := by
  induction d with
  | nil => simp [dGet]
  | cons p d ih =>
    by_cases h : p.1 = k
    · simp [dGet_cons, h]
    · simpa [dGet_cons, h] using ih

theorem dGet_none_of_dHas_false (d : Dict) (k : String) (h : dHas d k = false) :
    dGet d k = none := by
  unfold dHas at h
  unfold dGet
  cases hf : (d.find? (fun p => p.1 = k)) with
  | none => rfl
  | some p => rw [hf] at h; simp at h

theorem dGet_mapSet_ne (d : Dict) (k k' : String) (v : Val) (h : k ≠ k') :
    dGet (d.map (fun p => if p.1 = k then (k, v) else p)) k' = dGet d k' := by
  induction d with
  | nil => rfl
  | cons q d ih =>
    by_cases hq : q.1 = k
    · simp only [List.map_cons, if_pos hq, dGet_cons]
      simp only [show ¬((k, v).1 = k') from by simpa using h, if_false,
        show ¬(q.1 = k') from fun hc => h (hq ▸ hc), if_false]
      exact ih
    · simp only [List.map_cons, if_neg hq, dGet_cons]
      by_cases hq' : q.1 = k'
      · simp [hq']
      · simp only [hq', if_false]
        exact ih

theorem dGet_mapSet_self (d : Dict) (k : String) (v : Val) (h : dHas d k = true) :
    dGet (d.map (fun p => if p.1 = k then (k, v) else p)) k = some v := by
  induction d with
  | nil => simp [dHas] at h
  | cons q d ih =>
    by_cases hq : q.1 = k
    · simp [dGet_cons, if_pos hq]
    · rw [dHas_cons, if_neg hq] at h
      simp only [List.map_cons, if_neg hq, dGet_cons, hq, if_false]
      exact ih h

theorem dGet_dSet (d : Dict) (k k' : String) (v : Val) :
    dGet (dSet d k v) k' = if k = k' then some v else dGet d k' := by
  unfold dSet
  by_cases h : dHas d k
  · simp only [h, if_pos rfl]
    by_cases hk : k = k'
    · subst hk; simpa using dGet_mapSet_self d k v h
    · simp [hk, dGet_mapSet_ne d k k' v hk]
  · have h' : dHas d k = false := by simpa using h
    simp only [h', Bool.false_eq_true, if_false]
    rw [dGet_append]
    by_cases hk : k = k'
    · subst hk
      rw [dGet_none_of_dHas_false d k h']
      simp [dGet_cons]
    · cases hdk : dGet d k' with
      | none => simp [hdk, dGet_cons, hk, dGet]
      | some w => simp [hdk, hk]

theorem dGet_dSet_self (d : Dict) (k : String) (v : Val) :
    dGet (dSet d k v) k = some v := by
  simp [dGet_dSet]

theorem dGet_dSet_ne (d : Dict) (k k' : String) (v : Val) (h : k ≠ k') :
    dGet (dSet d k v) k' = dGet d k' := by
  simp [dGet_dSet, h]

theorem dGet_dUpdate_not_mem (d e : Dict) (k : String) (h : ∀ p ∈ e, p.1 ≠ k) :
    dGet (dUpdate d e) k = dGet d k := by
  induction e generalizing d with
  | nil => rfl
  | cons p e ih =>
    have h1 : p.1 ≠ k := h p (by simp)
    have h2 : ∀ q ∈ e, q.1 ≠ k := fun q hq => h q (by simp [hq])
    show dGet (dUpdate (dSet d p.1 p.2) e) k = dGet d k
    rw [ih (dSet d p.1 p.2) h2, dGet_dSet_ne d p.1 k p.2 h1]

theorem dGet_dUpdate_mem (d e : Dict) (k : String) (v : Val)
    (hnd : (e.map Prod.fst).Nodup) (hm : (k, v) ∈ e) :
    dGet (dUpdate d e) k = some v := by
  induction e generalizing d with
  | nil => simp at hm
  | cons p e ih =>
    rcases List.mem_cons.mp hm with h | h
    · subst h
      have hk : ∀ q ∈ e, q.1 ≠ k := by
        intro q hq
        have hne : k ∉ e.map Prod.fst := by
          simpa using (List.nodup_cons.mp hnd).1
        intro hc
        exact hne (hc ▸ List.mem_map_of_mem Prod.fst hq)
      show dGet (dUpdate (dSet d k v) e) k = some v
      rw [dGet_dUpdate_not_mem _ _ _ hk, dGet_dSet_self]
    · exact ih (dSet d p.1 p.2) (List.nodup_cons.mp hnd).2 h

theorem dGet_filter_pos (f : String → Bool) (d : Dict) (k : String) (v : Val)
    (hnd : (d.map Prod.fst).Nodup) (hm : (k, v) ∈ d) (hf : f k = true) :
    dGet (d.filter (fun p => f p.1)) k = some v := by
  induction d with
  | nil => simp at hm
  | cons p d ih =>
    rcases List.mem_cons.mp hm with h | h
    · subst h
      rw [List.filter_cons_of_pos (by simpa using hf)]
      simp [dGet_cons]
    · have hp : p.1 ≠ k := by
        have hne : p.1 ∉ d.map Prod.fst := by simpa using (List.nodup_cons.mp hnd).1
        intro hc
        exact hne (hc ▸ List.mem_map_of_mem Prod.fst h)
      have ihr := ih (List.nodup_cons.mp hnd).2 h
      by_cases hfp : f p.1
      · rw [List.filter_cons_of_pos (by simpa using hfp), dGet_cons, if_neg hp]
        exact ihr
      · rw [List.filter_cons_of_neg (by simpa using hfp)]
        exact ihr

theorem dGet_filter_neg (f : String → Bool) (d : Dict) (k : String) (hf : f k = false) :
    dGet (d.filter (fun p => f p.1)) k = none := by
  induction d with
  | nil => rfl
  | cons p d ih =>
    by_cases hfp : f p.1
    · have hp : p.1 ≠ k := fun hc => by rw [hc, hf] at hfp; exact absurd hfp (by simp)
      rw [List.filter_cons_of_pos (by simpa using hfp), dGet_cons, if_neg hp]
      exact ih
    · rw [List.filter_cons_of_neg (by simpa using hfp)]
      exact ih

theorem keys_filter_nodup (d : Dict) (f : (String × Val) → Bool)
    (hnd : (d.map Prod.fst).Nodup) : ((d.filter f).map Prod.fst).Nodup :=
  ((List.filter_sublist d).map Prod.fst).nodup hnd

theorem dGet_eq_none_iff (d : Dict) (k : String) :
    dGet d k = none ↔ ∀ p ∈ d, p.1 ≠ k := by
  constructor
  · intro h p hp hc
    induction d with
    | nil => simp at hp
    | cons q d ih =>
      rcases List.mem_cons.mp hp with hq | hq
      · subst hq
        rw [dGet_cons, if_pos hc] at h
        exact Option.noConfusion h
      · by_cases hq1 : q.1 = k
        · rw [dGet_cons, if_pos hq1] at h
          exact Option.noConfusion h
        · rw [dGet_cons, if_neg hq1] at h
          exact ih h hq
  · intro h
    induction d with
    | nil => rfl
    | cons q d ih =>
      rw [dGet_cons, if_neg (h q (by simp))]
      exact ih fun p hp => h p (by simp [hp])

theorem dGet_filter_none (f : (String × Val) → Bool) (d : Dict) (k : String)
    (h : dGet d k = none) : dGet (d.filter f) k = none := by
  rw [dGet_eq_none_iff] at h ⊢
  exact fun p hp => h p (List.mem_filter.mp hp).1

theorem dHas_of_mem (d : Dict) (k : String) (v : Val) (hm : (k, v) ∈ d) :
    dHas d k = true := by
  unfold dHas
  rw [List.find?_isSome]
  exact ⟨(k, v), hm, by simp⟩

/-! ### Claim C10: fk_ (and table_) kwargs are moved into info -/

/-- Shared shape of the `fk_`-popping done by `OneToMany` and `ManyToOne`:
an `fk_`-keyed entry of the kwargs ends up in the updated info and not in
the kwargs handed to `relationship`; any other entry (apart from the forced
`uselist`) survives in those kwargs. -/
theorem fkPop_shape (pairs info0 : Dict) (b : Bool) (k : String) (v : Val)
    (hnd : (pairs.map Prod.fst).Nodup) (hm : (k, v) ∈ pairs) :
    (strStarts k "fk_" = true →
      dGet (dUpdate info0 (pairs.filter (fun p => strStarts p.1 "fk_"))) k = some v ∧
      dGet (dSet (pairs.filter (fun p => !(strStarts p.1 "fk_"))) "uselist" (.vbool b)) k =
        none) ∧
    (strStarts k "fk_" = false → k ≠ "uselist" →
      dGet (dSet (pairs.filter (fun p => !(strStarts p.1 "fk_"))) "uselist" (.vbool b)) k =
        some v) := by
  constructor
  · intro hk
    have hku : k ≠ "uselist" := by
      rintro rfl
      exact absurd hk (by decide)
    constructor
    · exact dGet_dUpdate_mem info0 _ k v
        (keys_filter_nodup pairs _ hnd) (List.mem_filter.mpr ⟨hm, hk⟩)
    · rw [dGet_dSet_ne _ _ _ _ fun hc => hku hc.symm]
      exact dGet_filter_neg (fun s => !(strStarts s "fk_")) pairs k (by simp [hk])
  · intro hk hku
    rw [dGet_dSet_ne _ _ _ _ fun hc => hku hc.symm]
    exact dGet_filter_pos (fun s => !(strStarts s "fk_")) pairs k v hnd hm (by simp [hk])

/-- C10: before the relationship is constructed, every keyword argument whose
name starts with `fk_` (and, for `ManyToMany`, `table_`) is removed from the
keyword arguments and stored in the relation's info dict, so those options
are never passed to `relationship`; every other keyword argument (apart from
`uselist`, which the builders force, and `table_name`, which is a named
parameter and can never be in kwargs) is left in place. -/
theorem c10_fk_kwargs_moved_to_info (kw : Kwargs) (key remote : String)
    (tn : Option String) (cls : ModelClass)
    (hnd : (kw.pairs.map Prod.fst).Nodup)
    (htn : dHas kw.pairs "table_name" = false) :
    (∀ k v, (k, v) ∈ kw.pairs →
      (strStarts k "fk_" = true →
        dGet (o2m_eval key remote kw cls).2.info k = some v ∧
        dGet (o2m_eval key remote kw cls).2.passedKwargs k = none) ∧
      (strStarts k "fk_" = false → k ≠ "uselist" →
        dGet (o2m_eval key remote kw cls).2.passedKwargs k = some v)) ∧
    (∀ k v, (k, v) ∈ kw.pairs →
      (strStarts k "fk_" = true →
        dGet (m2o_eval key remote kw cls).2.info k = some v ∧
        dGet (m2o_eval key remote kw cls).2.passedKwargs k = none) ∧
      (strStarts k "fk_" = false → k ≠ "uselist" →
        dGet (m2o_eval key remote kw cls).2.passedKwargs k = some v)) ∧
    (∀ cls1 rel, m2m_eval key remote tn kw cls = .ok (cls1, rel) →
      ∀ k v, (k, v) ∈ kw.pairs →
        ((strStarts k "fk_" = true ∨ strStarts k "table_" = true) →
          dGet rel.info k = some v ∧ dGet rel.passedKwargs k = none) ∧
        (strStarts k "fk_" = false → strStarts k "table_" = false → k ≠ "uselist" →
          dGet rel.passedKwargs k = some v)) := by
  refine ⟨?_, ?_, ?_⟩
  · intro k v hm
    have h := fkPop_shape kw.pairs kw.info true k v hnd hm
    simp only [o2m_eval, _get_kwargs_for_relation]
    exact h
  · intro k v hm
    have h := fkPop_shape kw.pairs kw.info false k v hnd hm
    simp only [m2o_eval, _get_kwargs_for_relation]
    exact h
  · intro cls1 rel hok k v hm
    have hktn : k ≠ "table_name" := by
      intro hc
      rw [dHas_of_mem kw.pairs "table_name" v (hc ▸ hm)] at htn
      exact Bool.noConfusion htn
    have hrest1nd : (((kw.pairs.filter (fun p => !(strStarts p.1 "fk_"))).map
        Prod.fst)).Nodup := keys_filter_nodup kw.pairs _ hnd
    unfold m2m_eval at hok
    by_cases hc : (kw.secondaryGiven.isNone && tn.isNone) = true
    · rw [if_pos hc] at hok
      exact absurd hok (by simp)
    · rw [if_neg hc] at hok
      injection hok with hpair
      injection hpair with hcls hrel
      subst hrel
      dsimp only
      simp only [_get_kwargs_for_relation]
      constructor
      · intro hor
        by_cases hfk : strStarts k "fk_" = true
        · have hknotrest1 : dGet (kw.pairs.filter (fun p => !(strStarts p.1 "fk_"))) k =
              none :=
            dGet_filter_neg (fun s => !(strStarts s "fk_")) kw.pairs k (by simp [hfk])
          have hku : k ≠ "uselist" := by
            rintro rfl
            exact absurd hfk (by decide)
          constructor
          · have h1 : dGet (dUpdate (dUpdate kw.info
                (kw.pairs.filter (fun p => strStarts p.1 "fk_")))
                ((kw.pairs.filter (fun p => !(strStarts p.1 "fk_"))).filter
                  (fun p => strStarts p.1 "table_"))) k = some v := by
              rw [dGet_dUpdate_not_mem]
              · exact dGet_dUpdate_mem _ _ k v (keys_filter_nodup kw.pairs _ hnd)
                  (List.mem_filter.mpr ⟨hm, hfk⟩)
              · intro p hp hc
                have h2 := (List.mem_filter.mp (List.mem_filter.mp hp).1).2
                rw [hc, hfk] at h2
                exact Bool.noConfusion h2
            cases tn with
            | none => exact h1
            | some s =>
              dsimp only
              by_cases hs : strEmpty s = true
              · simpa [hs] using h1
              · rw [show (strEmpty s) = false by simpa using hs]
                simp only [Bool.false_eq_true, if_false]
                rw [dGet_dSet_ne _ _ _ _ fun hc => hktn hc.symm]
                exact h1
          · rw [dGet_dSet_ne _ _ _ _ fun hc => hku hc.symm]
            exact dGet_filter_none _ _ _ hknotrest1
        · have htb : strStarts k "table_" = true := by
            rcases hor with h | h
            · exact absurd h hfk
            · exact h
          have hku : k ≠ "uselist" := by
            rintro rfl
            exact absurd htb (by decide)
          have hmem1 : (k, v) ∈ kw.pairs.filter (fun p => !(strStarts p.1 "fk_")) :=
            List.mem_filter.mpr ⟨hm, by simp [hfk]⟩
          constructor
          · have h1 : dGet (dUpdate (dUpdate kw.info
                (kw.pairs.filter (fun p => strStarts p.1 "fk_")))
                ((kw.pairs.filter (fun p => !(strStarts p.1 "fk_"))).filter
                  (fun p => strStarts p.1 "table_"))) k = some v :=
              dGet_dUpdate_mem _ _ k v (keys_filter_nodup _ _ hrest1nd)
                (List.mem_filter.mpr ⟨hmem1, htb⟩)
            cases tn with
            | none => exact h1
            | some s =>
              dsimp only
              by_cases hs : strEmpty s = true
              · simpa [hs] using h1
              · rw [show (strEmpty s) = false by simpa using hs]
                simp only [Bool.false_eq_true, if_false]
                rw [dGet_dSet_ne _ _ _ _ fun hc => hktn hc.symm]
                exact h1
          · rw [dGet_dSet_ne _ _ _ _ fun hc => hku hc.symm]
            exact dGet_filter_neg (fun s => !(strStarts s "table_")) _ k (by simp [htb])
      · intro hfk htb hku
        rw [dGet_dSet_ne _ _ _ _ fun hc => hku hc.symm]
        exact dGet_filter_pos (fun s => !(strStarts s "table_")) _ k v hrest1nd
          (List.mem_filter.mpr ⟨hm, by simp [hfk]⟩) (by simp [htb])

/-- Concrete kwargs exercising the builders. -/
def wPairs : Dict := [("fk_x", .vstr "1"), ("table_y", .vstr "2"), ("lazy", .vstr "sel")]

/-- Concrete builder call input. -/
def wKw : Kwargs :=
  { pairs := wPairs, info := [], backref := some (.plain "b"), secondaryGiven := none }

/-- A bare declaring class for builder evaluation. -/
def wCls : ModelClass := { name := "A", tableKey := "a", attrs := [], rels := [], done := [] }

/-- Witness for C10 at a concrete builder call. -/
theorem c10_witness :
    dGet (o2m_eval "bs" "B" wKw wCls).2.info "fk_x" = some (.vstr "1") ∧
    dGet (o2m_eval "bs" "B" wKw wCls).2.passedKwargs "fk_x" = none ∧
    dGet (o2m_eval "bs" "B" wKw wCls).2.passedKwargs "lazy" = some (.vstr "sel") := by
  have h := (c10_fk_kwargs_moved_to_info wKw "bs" "B" (some "ab") wCls
    (by decide) (by decide)).1
  have h1 := (h "fk_x" (.vstr "1") (by decide)).1 (by decide)
  have h2 := (h "lazy" (.vstr "sel") (by decide)).2 (by decide) (by decide)
  exact ⟨h1.1, h1.2, h2⟩


/-! ### Claim C8: collection shape is forced -/

/-- A truthy backref argument is normalised to a name/kwargs pair whose
kwargs carry the forced `uselist`. -/
theorem processBackref_truthy (ul : Bool) (a : BackrefArg) (h : a.truthy = true) :
    ∃ n d, processBackref ul (some a) = some (.pair n d) ∧
      dGet d "uselist" = some (.vbool ul) := by
  cases a with
  | plain n =>
    refine ⟨n, dSet [] "uselist" (.vbool ul), ?_, dGet_dSet_self _ _ _⟩
    simp [processBackref, h]
  | tup n bkw =>
    refine ⟨n, dSet bkw "uselist" (.vbool ul), ?_, dGet_dSet_self _ _ _⟩
    simp [processBackref, h]

/-- C8: the builders force the collection shape regardless of caller-supplied
values: `OneToMany` puts `uselist=True` on the relation and `uselist=False`
on a (truthy) backref, `ManyToOne` the reverse, `ManyToMany` `uselist=True`
on both.  The `uselist` entry of the kwargs handed to `relationship` is
overwritten with the same forced value. -/
theorem c8_collection_shape_forced (key remote : String) (kw : Kwargs)
    (cls : ModelClass) (tn : Option String) :
    ((o2m_eval key remote kw cls).2.uselist = true ∧
      dGet (o2m_eval key remote kw cls).2.passedKwargs "uselist" = some (.vbool true) ∧
      (∀ a, kw.backref = some a → a.truthy = true →
        ∃ n d, (o2m_eval key remote kw cls).2.backref = some (.pair n d) ∧
          dGet d "uselist" = some (.vbool false))) ∧
    ((m2o_eval key remote kw cls).2.uselist = false ∧
      dGet (m2o_eval key remote kw cls).2.passedKwargs "uselist" = some (.vbool false) ∧
      (∀ a, kw.backref = some a → a.truthy = true →
        ∃ n d, (m2o_eval key remote kw cls).2.backref = some (.pair n d) ∧
          dGet d "uselist" = some (.vbool true))) ∧
    (∀ cls1 rel, m2m_eval key remote tn kw cls = .ok (cls1, rel) →
      rel.uselist = true ∧
      dGet rel.passedKwargs "uselist" = some (.vbool true) ∧
      (∀ a, kw.backref = some a → a.truthy = true →
        ∃ n d, rel.backref = some (.pair n d) ∧
          dGet d "uselist" = some (.vbool true))) := by
  refine ⟨⟨rfl, dGet_dSet_self _ _ _, ?_⟩, ⟨rfl, dGet_dSet_self _ _ _, ?_⟩, ?_⟩
  · intro a ha htr
    show ∃ n d, processBackref false kw.backref = some (.pair n d) ∧
      dGet d "uselist" = some (.vbool false)
    rw [ha]
    exact processBackref_truthy false a htr
  · intro a ha htr
    show ∃ n d, processBackref true kw.backref = some (.pair n d) ∧
      dGet d "uselist" = some (.vbool true)
    rw [ha]
    exact processBackref_truthy true a htr
  · intro cls1 rel hok
    unfold m2m_eval at hok
    by_cases hc : (kw.secondaryGiven.isNone && tn.isNone) = true
    · rw [if_pos hc] at hok
      exact absurd hok (by simp)
    · rw [if_neg hc] at hok
      injection hok with hpair
      injection hpair with hcls hrel
      subst hrel
      refine ⟨rfl, dGet_dSet_self _ _ _, ?_⟩
      intro a ha htr
      show ∃ n d, processBackref true kw.backref = some (.pair n d) ∧
        dGet d "uselist" = some (.vbool true)
      rw [ha]
      exact processBackref_truthy true a htr

/-- Witness for C8 at a concrete builder call. -/
theorem c8_witness :
    (o2m_eval "bs" "B" wKw wCls).2.uselist = true ∧
    dGet (o2m_eval "bs" "B" wKw wCls).2.passedKwargs "uselist" = some (.vbool true) ∧
    (∃ n d, (o2m_eval "bs" "B" wKw wCls).2.backref = some (.pair n d) ∧
      dGet d "uselist" = some (.vbool false)) ∧
    (m2o_eval "bs" "B" wKw wCls).2.uselist = false ∧
    (∃ cls1 rel, m2m_eval "bs" "B" (some "ab") wKw wCls = .ok (cls1, rel) ∧
      rel.uselist = true) := by
  have h := c8_collection_shape_forced "bs" "B" wKw wCls (some "ab")
  refine ⟨h.1.1, h.1.2.1, h.1.2.2 (.plain "b") rfl (by decide), h.2.1.1, ?_⟩
  cases heval : m2m_eval "bs" "B" (some "ab") wKw wCls with
  | error e =>
    have hok : (m2m_eval "bs" "B" (some "ab") wKw wCls).toOption.isSome = true := by decide
    rw [heval] at hok
    simp [Except.toOption] at hok
  | ok p =>
    exact ⟨p.1, p.2, rfl, (h.2.2 p.1 p.2 (by rw [heval])).1⟩

/-! ### Claim C4: ManyToMany requires secondary or table_name -/

/-- C4: evaluating the `ManyToMany` declarative attribute raises
`sa.exc.ArgumentError` exactly when neither a `secondary` keyword argument
nor a `table_name` was supplied, and in that case no relationship is
registered; otherwise it succeeds and registers exactly one pending
relationship on the class. -/
theorem c4_m2m_argument_error (key remote : String) (tn : Option String)
    (kw : Kwargs) (cls : ModelClass) (st : DBState) (clsName : String) :
    (kw.secondaryGiven = none ∧ tn = none →
      m2m_eval key remote tn kw cls = .error m2mArgError ∧
      (st.getClass clsName = some cls →
        declareAttrManyToMany st clsName key remote tn kw = .error m2mArgError)) ∧
    ((kw.secondaryGiven ≠ none ∨ tn ≠ none) →
      ∃ rel, m2m_eval key remote tn kw cls =
        .ok ({ cls with rels := cls.rels ++ [rel] }, rel)) := by
  constructor
  · rintro ⟨h1, h2⟩
    have herr : m2m_eval key remote tn kw cls = .error m2mArgError := by
      unfold m2m_eval
      rw [h1, h2]
      simp
    refine ⟨herr, ?_⟩
    intro hget
    unfold declareAttrManyToMany
    rw [hget]
    show (match ManyToMany remote tn kw key cls with
      | .error e => Except.error e
      | .ok res => Except.ok (st.setClass res.1)) = Except.error m2mArgError
    rw [show ManyToMany remote tn kw key cls = m2m_eval key remote tn kw cls from rfl,
      herr]
  · intro h
    have hc : (kw.secondaryGiven.isNone && tn.isNone) = false := by
      rcases h with h | h
      · cases hs : kw.secondaryGiven with
        | none => exact absurd hs h
        | some v => simp [hs]
      · cases hs : tn with
        | none => exact absurd hs h
        | some v => simp [hs]
    unfold m2m_eval
    rw [hc]
    simp only [Bool.false_eq_true, if_false]
    exact ⟨_, rfl⟩

/-- Witness for C4: the error fires with neither option, and a table_name
alone makes the evaluation succeed and register the relation. -/
theorem c4_witness :
    m2m_eval "bs" "B" none
      { pairs := [], info := [], backref := none, secondaryGiven := none } wCls =
      .error m2mArgError ∧
    ∃ rel, m2m_eval "bs" "B" (some "ab") wKw wCls =
      .ok ({ wCls with rels := wCls.rels ++ [rel] }, rel) := by
  refine ⟨?_, ?_⟩
  · exact ((c4_m2m_argument_error "bs" "B" none
      { pairs := [], info := [], backref := none, secondaryGiven := none } wCls
      { classes := [], metadata := [] } "A").1 ⟨rfl, rfl⟩).1
  · exact (c4_m2m_argument_error "bs" "B" (some "ab") wKw wCls
      { classes := [], metadata := [] } "A").2 (Or.inr (by simp))



/-! ### String and table helper lemmas -/

theorem strEmpty_false_iff (s : String) : strEmpty s = false ↔ s ≠ "" := by
  cases s with
  | mk d =>
    cases d with
    | nil =>
      constructor
      · intro h
        exact absurd h (by decide)
      · intro h
        exact absurd rfl h
    | cons c cs =>
      constructor
      · intro _ hc
        exact absurd (congrArg String.data hc) (by simp)
      · intro _
        rfl

theorem strLower_ne_empty (s : String) (h : s ≠ "") : strLower s ≠ "" := by
  cases s with
  | mk d =>
    cases d with
    | nil => exact absurd rfl h
    | cons c cs =>
      intro hc
      exact absurd (congrArg String.data hc) (by simp [strLower])

theorem joinNonEmpty_two (a b : String) (ha : a ≠ "") (hb : b ≠ "") :
    joinNonEmpty [a, b] = a ++ "_" ++ b := by
  unfold joinNonEmpty
  rw [show ([a, b].filter (fun s => !(strEmpty s))) = [a, b] by
    simp [(strEmpty_false_iff a).mpr ha, (strEmpty_false_iff b).mpr hb]]
  rfl

theorem fkColName_eq (fkKey : String) (pk : Column) (hk : fkKey ≠ "")
    (hn : pk.name ≠ "") : fkColName fkKey pk = fkKey ++ "_" ++ pk.name :=
  joinNonEmpty_two fkKey pk.name hk hn

theorem hasCol_append_one (t : Table) (cs : List Column) (c : Column) (n : String) :
    (Table.hasCol { t with columns := cs ++ [c] } n) =
      ((Table.hasCol { t with columns := cs }) n || (c.name = n)) := by
  simp [Table.hasCol]

theorem hasAttr_append_one (attrs : List String) (a x : String) :
    hasAttr (attrs ++ [a]) x = (hasAttr attrs x || (a = x)) := by
  simp [hasAttr]

theorem getCol_of_hasCol (t : Table) (n : String) (h : t.hasCol n = true) :
    ∃ c, t.getCol n = some c ∧ c.name = n := by
  unfold Table.hasCol at h
  unfold Table.getCol
  have hiso : (t.columns.find? (fun c => c.name = n)).isSome := by
    rw [List.find?_isSome]
    obtain ⟨c, hc, hcn⟩ := List.any_eq_true.mp h
    exact ⟨c, hc, hcn⟩
  cases hf : t.columns.find? (fun c => c.name = n) with
  | none => rw [hf] at hiso; exact absurd hiso (by simp)
  | some c =>
    exact ⟨c, rfl, by simpa using List.find?_some hf⟩

/-! ### The fk-column generation loop -/

/-- When every generated column name and attribute is fresh, the loop creates
one column per primary-key column, in order, and reports creation. -/
theorem fkLoop_fresh (fkKey fkPre : String) (nul : Bool) :
    ∀ (pks : List Column) (tbl : Table) (attrs : List String)
      (cols : List (Column × Column)) (created : Bool),
    (∀ pk ∈ pks, tbl.hasCol (fkColName fkKey pk) = false) →
    (∀ pk ∈ pks, hasAttr attrs (fkAttrName fkPre fkKey pk) = false) →
    (pks.map (fkColName fkKey)).Nodup →
    (pks.map (fkAttrName fkPre fkKey)).Nodup →
    fkLoop fkKey fkPre nul tbl attrs cols created pks =
      .ok ({ tbl with columns := tbl.columns ++ pks.map (mkFkCol fkKey fkPre nul) },
        attrs ++ pks.map (fkAttrName fkPre fkKey),
        cols ++ pks.map (fun pk => (pk, mkFkCol fkKey fkPre nul pk)),
        created || !pks.isEmpty) := by
  intro pks
  induction pks with
  | nil =>
    intro tbl attrs cols created _ _ _ _
    simp [fkLoop]
  | cons pk rest ih =>
    intro tbl attrs cols created hfc hfa hndc hnda
    have hc1 : tbl.hasCol (fkColName fkKey pk) = false := hfc pk (by simp)
    have ha1 : hasAttr attrs (fkAttrName fkPre fkKey pk) = false := hfa pk (by simp)
    rw [List.map_cons] at hndc hnda
    have hconsndc := List.nodup_cons.mp hndc
    have hconsnda := List.nodup_cons.mp hnda
    have hcnotin : fkColName fkKey pk ∉ rest.map (fkColName fkKey) := hconsndc.1
    have hanotin : fkAttrName fkPre fkKey pk ∉ rest.map (fkAttrName fkPre fkKey) :=
      hconsnda.1
    rw [fkLoop, hc1, ha1]
    simp only [Bool.not_false, Bool.and_self, if_true]
    rw [ih { tbl with columns := tbl.columns ++ [mkFkCol fkKey fkPre nul pk] }
      (attrs ++ [fkAttrName fkPre fkKey pk]) (cols ++ [(pk, mkFkCol fkKey fkPre nul pk)])
      true ?hfc ?hfa ?hndc ?hnda]
    case hfc =>
      intro q hq
      rw [hasCol_append_one]
      have h1 : Table.hasCol { tbl with columns := tbl.columns } (fkColName fkKey q) =
          false := by
        have := hfc q (by simp [hq])
        simpa [Table.hasCol] using this
      rw [h1]
      have h2 : (mkFkCol fkKey fkPre nul pk).name ≠ fkColName fkKey q := by
        show fkColName fkKey pk ≠ fkColName fkKey q
        intro hc
        exact hcnotin (hc ▸ List.mem_map_of_mem (fkColName fkKey) hq)
      simp [h2]
    case hfa =>
      intro q hq
      rw [hasAttr_append_one, hfa q (by simp [hq])]
      have h2 : fkAttrName fkPre fkKey pk ≠ fkAttrName fkPre fkKey q := by
        intro hc
        exact hanotin (hc ▸ List.mem_map_of_mem (fkAttrName fkPre fkKey) hq)
      simp [h2]
    case hndc => exact hconsndc.2
    case hnda => exact hconsnda.2
    simp [List.append_assoc]

/-- When every generated column name already exists in the table, the loop
changes nothing and reuses the existing columns. -/
theorem fkLoop_existing (fkKey fkPre : String) (nul : Bool) :
    ∀ (pks : List Column) (tbl : Table) (attrs : List String)
      (cols : List (Column × Column)) (created : Bool),
    (∀ pk ∈ pks, tbl.hasCol (fkColName fkKey pk) = true) →
    ∃ newPairs,
      fkLoop fkKey fkPre nul tbl attrs cols created pks =
        .ok (tbl, attrs, cols ++ newPairs, created) ∧
      newPairs.map Prod.fst = pks ∧
      ∀ p ∈ newPairs, p.2 ∈ tbl.columns ∧ p.2.name = fkColName fkKey p.1 := by
  intro pks
  induction pks with
  | nil =>
    intro tbl attrs cols created _
    exact ⟨[], by simp [fkLoop], by simp, by simp⟩
  | cons pk rest ih =>
    intro tbl attrs cols created hall
    have hc1 : tbl.hasCol (fkColName fkKey pk) = true := hall pk (by simp)
    obtain ⟨c, hgc, hcn⟩ := getCol_of_hasCol tbl (fkColName fkKey pk) hc1
    obtain ⟨newPairs, heq, hmap, hmem⟩ :=
      ih tbl attrs (cols ++ [(pk, c)]) created (fun q hq => hall q (by simp [hq]))
    refine ⟨(pk, c) :: newPairs, ?_, ?_, ?_⟩
    · rw [fkLoop, hc1]
      simp only [Bool.not_true, Bool.false_and, Bool.false_eq_true, if_false]
      rw [hgc]
      dsimp only
      rw [heq, List.append_assoc]
      rfl
    · simp [hmap]
    · intro p hp
      rcases List.mem_cons.mp hp with h | h
      · subst h
        exact ⟨List.mem_of_find?_eq_some hgc, hcn⟩
      · exact hmem p h


/-- Whatever the mix of created and reused columns, the loop pairs each
primary-key column, in order, with a foreign-key column carrying the
generated name. -/
theorem fkLoop_pairs (fkKey fkPre : String) (nul : Bool) :
    ∀ (pks : List Column) (tbl : Table) (attrs : List String)
      (cols : List (Column × Column)) (created : Bool)
      (out : Table × List String × List (Column × Column) × Bool),
    fkLoop fkKey fkPre nul tbl attrs cols created pks = .ok out →
    ∃ pairs, out.2.2.1 = cols ++ pairs ∧ pairs.map Prod.fst = pks ∧
      ∀ p ∈ pairs, p.2.name = fkColName fkKey p.1 := by
  intro pks
  induction pks with
  | nil =>
    intro tbl attrs cols created out hok
    rw [fkLoop] at hok
    injection hok with h
    exact ⟨[], by rw [← h]; simp, by simp, by simp⟩
  | cons pk rest ih =>
    intro tbl attrs cols created out hok
    rw [fkLoop] at hok
    by_cases hcond : (!tbl.hasCol (fkColName fkKey pk) &&
        !(hasAttr attrs (fkAttrName fkPre fkKey pk))) = true
    · rw [if_pos hcond] at hok
      obtain ⟨pairs, h1, h2, h3⟩ := ih _ _ _ _ _ hok
      refine ⟨(pk, mkFkCol fkKey fkPre nul pk) :: pairs, ?_, by simp [h2], ?_⟩
      · rw [h1, List.append_assoc]
        rfl
      · intro p hp
        rcases List.mem_cons.mp hp with h | h
        · subst h
          rfl
        · exact h3 p h
    · rw [if_neg hcond] at hok
      cases hgc : tbl.getCol (fkColName fkKey pk) with
      | none =>
        rw [hgc] at hok
        exact absurd hok (by simp)
      | some c =>
        rw [hgc] at hok
        dsimp only at hok
        obtain ⟨pairs, h1, h2, h3⟩ := ih _ _ _ _ _ hok
        refine ⟨(pk, c) :: pairs, ?_, by simp [h2], ?_⟩
        · rw [h1, List.append_assoc]
          rfl
        · intro p hp
          rcases List.mem_cons.mp hp with h | h
          · subst h
            exact (getCol_of_hasCol tbl (fkColName fkKey pk) (by
              unfold Table.hasCol
              rw [List.any_eq_true]
              exact ⟨c, List.mem_of_find?_eq_some hgc, by
                simpa using List.find?_some hgc⟩)).elim (fun c2 hc2 => by
                  rw [hgc] at hc2
                  obtain ⟨hc2a, hc2b⟩ := hc2
                  injection hc2a with hcc
                  exact hcc ▸ hc2b)
          · exact h3 p h

/-- The loop only ever appends columns; name, schema, constraints and kwargs
of the target table are untouched, and attributes only grow. -/
theorem fkLoop_frame (fkKey fkPre : String) (nul : Bool) :
    ∀ (pks : List Column) (tbl : Table) (attrs : List String)
      (cols : List (Column × Column)) (created : Bool)
      (out : Table × List String × List (Column × Column) × Bool),
    fkLoop fkKey fkPre nul tbl attrs cols created pks = .ok out →
    out.1.name = tbl.name ∧ out.1.schema = tbl.schema ∧
    out.1.constraints = tbl.constraints ∧ out.1.kwargs = tbl.kwargs ∧
    (∃ newCols, out.1.columns = tbl.columns ++ newCols) ∧
    (∃ newAttrs, out.2.1 = attrs ++ newAttrs) := by
  intro pks
  induction pks with
  | nil =>
    intro tbl attrs cols created out hok
    rw [fkLoop] at hok
    injection hok with h
    rw [← h]
    exact ⟨rfl, rfl, rfl, rfl, ⟨[], by simp⟩, ⟨[], by simp⟩⟩
  | cons pk rest ih =>
    intro tbl attrs cols created out hok
    rw [fkLoop] at hok
    by_cases hcond : (!tbl.hasCol (fkColName fkKey pk) &&
        !(hasAttr attrs (fkAttrName fkPre fkKey pk))) = true
    · rw [if_pos hcond] at hok
      obtain ⟨h1, h2, h3, h4, ⟨nc, h5⟩, ⟨na, h6⟩⟩ := ih _ _ _ _ _ hok
      exact ⟨h1, h2, h3, h4,
        ⟨mkFkCol fkKey fkPre nul pk :: nc, by rw [h5]; simp⟩,
        ⟨fkAttrName fkPre fkKey pk :: na, by rw [h6]; simp⟩⟩
    · rw [if_neg hcond] at hok
      cases hgc : tbl.getCol (fkColName fkKey pk) with
      | none =>
        rw [hgc] at hok
        exact absurd hok (by simp)
      | some c =>
        rw [hgc] at hok
        dsimp only at hok
        exact ih _ _ _ _ _ hok

/-! ### State update lemmas -/

theorem tablesGet_replace_self (md : MetaData) (k : String) (t : Table)
    (hsome : (tablesGet md k).isSome) (ht : t.key = k) :
    tablesGet (md.map (fun x => if x.key = k then t else x)) k = some t := by
  induction md with
  | nil => simp [tablesGet] at hsome
  | cons x md ih =>
    by_cases hx : x.key = k
    · simp [tablesGet, List.find?_cons, hx, ht]
    · have hsome2 : (tablesGet md k).isSome := by
        unfold tablesGet at hsome ⊢
        rwa [List.find?_cons, show (decide (x.key = k) = false) by simp [hx]] at hsome
      simp only [List.map_cons, if_neg hx]
      unfold tablesGet at ih ⊢
      rw [List.find?_cons, show (decide (x.key = k) = false) by simp [hx]]
      exact ih hsome2

theorem tablesGet_replace_ne (md : MetaData) (k k' : String) (t : Table)
    (hne : k' ≠ k) (ht : t.key = k) :
    tablesGet (md.map (fun x => if x.key = k then t else x)) k' = tablesGet md k' := by
  induction md with
  | nil => rfl
  | cons x md ih =>
    by_cases hx : x.key = k
    · have h1 : ¬ (t.key = k') := fun hc => hne (hc.symm.trans ht)
      have h2 : ¬ (x.key = k') := fun hc => hne (hc.symm.trans hx)
      simp only [List.map_cons, if_pos hx]
      unfold tablesGet at ih ⊢
      rw [List.find?_cons, List.find?_cons,
        show (decide (t.key = k') = false) by simp [h1],
        show (decide (x.key = k') = false) by simp [h2]]
      exact ih
    · simp only [List.map_cons, if_neg hx]
      by_cases hx' : x.key = k'
      · simp [tablesGet, List.find?_cons, hx']
      · unfold tablesGet at ih ⊢
        rw [List.find?_cons, List.find?_cons,
          show (decide (x.key = k') = false) by simp [hx']]
        exact ih

theorem findClass_replace_self (cs : List ModelClass) (c' : ModelClass)
    (hsome : (cs.find? (fun c => c.name = c'.name)).isSome) :
    (cs.map (fun x => if x.name = c'.name then c' else x)).find?
      (fun c => c.name = c'.name) = some c' := by
  induction cs with
  | nil => simp [List.find?] at hsome
  | cons x cs ih =>
    by_cases hx : x.name = c'.name
    · simp [List.find?_cons, hx]
    · have hsome2 : (cs.find? (fun c => c.name = c'.name)).isSome := by
        rwa [List.find?_cons, show (decide (x.name = c'.name) = false) by simp [hx]]
          at hsome
      simp only [List.map_cons, if_neg hx]
      rw [List.find?_cons, show (decide (x.name = c'.name) = false) by simp [hx]]
      exact ih hsome2

theorem findClass_replace_ne (cs : List ModelClass) (c' : ModelClass) (n : String)
    (hne : n ≠ c'.name) :
    (cs.map (fun x => if x.name = c'.name then c' else x)).find? (fun c => c.name = n) =
      cs.find? (fun c => c.name = n) := by
  induction cs with
  | nil => rfl
  | cons x cs ih =>
    by_cases hx : x.name = c'.name
    · have h1 : ¬ (c'.name = n) := fun hc => hne hc.symm
      have h2 : ¬ (x.name = n) := fun hc => hne (hc.symm.trans hx)
      simp only [List.map_cons, if_pos hx]
      rw [List.find?_cons, List.find?_cons,
        show (decide (c'.name = n) = false) by simp [h1],
        show (decide (x.name = n) = false) by simp [h2]]
      exact ih
    · simp only [List.map_cons, if_neg hx]
      by_cases hx' : x.name = n
      · simp [List.find?_cons, hx']
      · rw [List.find?_cons, List.find?_cons,
          show (decide (x.name = n) = false) by simp [hx']]
        exact ih

theorem getClass_setClass_self (st : DBState) (c' : ModelClass) (n : String)
    (hsome : (st.getClass n).isSome) (hn : c'.name = n) :
    (st.setClass c').getClass n = some c' := by
  subst hn
  exact findClass_replace_self st.classes c' hsome

theorem getClass_setClass_ne (st : DBState) (c' : ModelClass) (n : String)
    (hne : n ≠ c'.name) :
    (st.setClass c').getClass n = st.getClass n :=
  findClass_replace_ne st.classes c' n hne


theorem getCol_none_of_not_hasCol (t : Table) (n : String) (h : t.hasCol n = false) :
    t.getCol n = none := by
  unfold Table.getCol
  rw [List.find?_eq_none]
  intro x hx hpx
  unfold Table.hasCol at h
  have := List.any_eq_false.mp h x hx
  exact this hpx

theorem map_if_id {α : Type} (l : List α) (q : α → Prop) [DecidablePred q] (t : α)
    (h : ∀ a ∈ l, ¬ q a) : l.map (fun a => if q a then t else a) = l := by
  induction l with
  | nil => rfl
  | cons x xs ih =>
    rw [List.map_cons, if_neg (h x (by simp)), ih (fun a ha => h a (by simp [ha]))]

theorem map_replaceTable_id (md : MetaData) (k : String) (t : Table)
    (hnd : (md.map Table.key).Nodup) (hget : tablesGet md k = some t) :
    md.map (fun x => if x.key = k then t else x) = md := by
  induction md with
  | nil => rfl
  | cons x md ih =>
    rw [List.map_cons] at hnd
    have hnd2 := List.nodup_cons.mp hnd
    by_cases hx : x.key = k
    · unfold tablesGet at hget
      rw [List.find?_cons, show (decide (x.key = k) = true) by simp [hx]] at hget
      injection hget with hxt
      have htail : ∀ y ∈ md, ¬ (y.key = k) := by
        intro y hy hc
        exact hnd2.1 (hx ▸ hc ▸ List.mem_map_of_mem Table.key hy)
      rw [List.map_cons, if_pos hx, ← hxt, map_if_id md (fun y => y.key = k) x htail]
    · unfold tablesGet at hget
      rw [List.find?_cons, show (decide (x.key = k) = false) by simp [hx]] at hget
      rw [List.map_cons, if_neg hx, ih hnd2.2 hget]

theorem map_replaceClass_id (cs : List ModelClass) (n : String) (c : ModelClass)
    (hnd : (cs.map ModelClass.name).Nodup)
    (hget : cs.find? (fun x => x.name = n) = some c) :
    cs.map (fun x => if x.name = c.name then c else x) = cs := by
  have hcn : c.name = n := by simpa using List.find?_some hget
  subst hcn
  induction cs with
  | nil => simp [List.find?] at hget
  | cons x cs ih =>
    rw [List.map_cons] at hnd
    have hnd2 := List.nodup_cons.mp hnd
    by_cases hx : x.name = c.name
    · rw [List.find?_cons, show (decide (x.name = c.name) = true) by simp [hx]] at hget
      injection hget with hxc
      have htail : ∀ y ∈ cs, ¬ (y.name = c.name) := by
        intro y hy hc
        exact hnd2.1 (hx ▸ hc ▸ List.mem_map_of_mem ModelClass.name hy)
      rw [List.map_cons, if_pos hx, ← hxc, map_if_id cs (fun y => y.name = x.name) x]
      intro a ha hc
      exact htail a ha (hc.trans hx)
    · rw [List.find?_cons, show (decide (x.name = c.name) = false) by simp [hx]] at hget
      rw [List.map_cons, if_neg hx, ih hnd2.2 hget]

/-! ### Characterisations of `_add_foreign_keys` -/

/-- Fresh case: one column per referenced primary-key column is appended to
the target table, the matching attributes are added to the target class, and
a foreign-key constraint over the generated columns referencing the parent
primary key is appended. -/
theorem addFK_create (st : DBState) (clsName parentName : String) (rel : Relation)
    (cls parent : ModelClass) (clsTable parentTable : Table)
    (fkPre fkKey : String) (nul : Bool) (fkkw : Dict)
    (hcls : st.getClass clsName = some cls)
    (hparent : st.getClass parentName = some parent)
    (hct : tablesGet st.metadata cls.tableKey = some clsTable)
    (hpt : tablesGet st.metadata parent.tableKey = some parentTable)
    (hopts : fkOptions rel parent.name = (fkPre, nul, fkKey, fkkw))
    (hfresh1 : ∀ pk ∈ parentTable.primaryKey,
      clsTable.hasCol (fkColName fkKey pk) = false)
    (hfresh2 : ∀ pk ∈ parentTable.primaryKey,
      hasAttr cls.attrs (fkAttrName fkPre fkKey pk) = false)
    (hndc : (parentTable.primaryKey.map (fkColName fkKey)).Nodup)
    (hnda : (parentTable.primaryKey.map (fkAttrName fkPre fkKey)).Nodup)
    (hne : parentTable.primaryKey ≠ []) :
    _add_foreign_keys st clsName parentName rel = .ok
      ((st.setTable cls.tableKey
          { clsTable with
            columns := clsTable.columns ++
              parentTable.primaryKey.map (mkFkCol fkKey fkPre nul)
            constraints := clsTable.constraints ++
              [{ columns := parentTable.primaryKey.map (fkColName fkKey)
                 refTable := parentTable.name
                 refColumns := parentTable.primaryKey.map Column.name
                 kwargs := fkkw }] }).setClass
        { cls with attrs := cls.attrs ++
            parentTable.primaryKey.map (fkAttrName fkPre fkKey) },
      { rel with userFKs := parentTable.primaryKey.map (mkFkCol fkKey fkPre nul) }) := by
  unfold _add_foreign_keys
  rw [hcls, hparent]
  dsimp only
  rw [hct, hpt]
  dsimp only
  rw [hopts]
  dsimp only
  rw [fkLoop_fresh fkKey fkPre nul parentTable.primaryKey clsTable cls.attrs [] false
    hfresh1 hfresh2 hndc hnda]
  dsimp only
  rw [show (false || !parentTable.primaryKey.isEmpty) = true by
    simp [List.isEmpty_iff, hne]]
  simp only [if_pos rfl, List.nil_append, List.map_map]
  rfl

/-- Reuse case: when every generated column name already exists in the target
table, the state is returned unchanged (no column, no attribute, no
constraint) and the existing columns are recorded on the relation. -/
theorem addFK_reuse (st : DBState) (clsName parentName : String) (rel : Relation)
    (cls parent : ModelClass) (clsTable parentTable : Table)
    (fkPre fkKey : String) (nul : Bool) (fkkw : Dict)
    (hcls : st.getClass clsName = some cls)
    (hparent : st.getClass parentName = some parent)
    (hct : tablesGet st.metadata cls.tableKey = some clsTable)
    (hpt : tablesGet st.metadata parent.tableKey = some parentTable)
    (hopts : fkOptions rel parent.name = (fkPre, nul, fkKey, fkkw))
    (hall : ∀ pk ∈ parentTable.primaryKey,
      clsTable.hasCol (fkColName fkKey pk) = true)
    (hmdnd : (st.metadata.map Table.key).Nodup)
    (hclsnd : (st.classes.map ModelClass.name).Nodup) :
    ∃ fks, _add_foreign_keys st clsName parentName rel =
        .ok (st, { rel with userFKs := fks }) ∧
      fks.length = parentTable.primaryKey.length ∧
      ∀ c ∈ fks, c ∈ clsTable.columns := by
  obtain ⟨newPairs, hloop, hmap, hmem⟩ :=
    fkLoop_existing fkKey fkPre nul parentTable.primaryKey clsTable cls.attrs [] false hall
  refine ⟨newPairs.map Prod.snd, ?_, ?_, ?_⟩
  · unfold _add_foreign_keys
    rw [hcls, hparent]
    dsimp only
    rw [hct, hpt]
    dsimp only
    rw [hopts]
    dsimp only
    rw [hloop]
    dsimp only
    simp only [Bool.false_eq_true, if_false]
    have hsetT : DBState.setTable st cls.tableKey clsTable = st := by
      unfold DBState.setTable
      have := map_replaceTable_id st.metadata cls.tableKey clsTable hmdnd hct
      rw [this]
    rw [hsetT]
    have hsetC : DBState.setClass st cls = st := by
      unfold DBState.setClass
      have := map_replaceClass_id st.classes clsName cls hclsnd hcls
      rw [this]
    rw [show ({ cls with attrs := cls.attrs } : ModelClass) = cls from rfl, hsetC]
    simp
  · rw [List.length_map, ← hmap, List.length_map]
  · intro c hc
    obtain ⟨p, hp, hpc⟩ := List.mem_map.mp hc
    exact hpc ▸ (hmem p hp).1

/-- Failure case: when the first generated column name is missing from the
table while the target attribute already exists, the lookup
`cls.__table__.columns[col_name]` raises `KeyError`. -/
theorem addFK_keyerror (st : DBState) (clsName parentName : String) (rel : Relation)
    (cls parent : ModelClass) (clsTable parentTable : Table)
    (fkPre fkKey : String) (nul : Bool) (fkkw : Dict) (pk : Column) (rest : List Column)
    (hcls : st.getClass clsName = some cls)
    (hparent : st.getClass parentName = some parent)
    (hct : tablesGet st.metadata cls.tableKey = some clsTable)
    (hpt : tablesGet st.metadata parent.tableKey = some parentTable)
    (hopts : fkOptions rel parent.name = (fkPre, nul, fkKey, fkkw))
    (hpks : parentTable.primaryKey = pk :: rest)
    (hnc : clsTable.hasCol (fkColName fkKey pk) = false)
    (hattr : hasAttr cls.attrs (fkAttrName fkPre fkKey pk) = true) :
    _add_foreign_keys st clsName parentName rel = .error "KeyError" := by
  unfold _add_foreign_keys
  rw [hcls, hparent]
  dsimp only
  rw [hct, hpt]
  dsimp only
  rw [hopts]
  dsimp only
  rw [hpks, fkLoop, hnc, hattr]
  simp only [Bool.not_true, Bool.not_false, Bool.true_and, Bool.false_eq_true, if_false]
  rw [getCol_none_of_not_hasCol clsTable _ hnc]


theorem forall₂_self_map {α β : Type} (r : α → β → Prop) (f : α → β) (l : List α)
    (h : ∀ a ∈ l, r a (f a)) : List.Forall₂ r l (l.map f) := by
  induction l with
  | nil => exact List.Forall₂.nil
  | cons x xs ih =>
    exact List.Forall₂.cons (h x (by simp)) (ih fun a ha => h a (by simp [ha]))

/-- Evaluation of `fkOptions` from hypotheses on the stripped `fk_` dict. -/
theorem fkOptions_eval (rel : Relation) (pn : String) (fkd : Dict)
    (fkKeyEff : String) (nulEff : Bool)
    (hfkd : stripKeys rel.info "fk_" 3 = fkd)
    (hpre : dGet fkd "prefix" = none)
    (hkey : (dGet fkd "key" = some (.vstr fkKeyEff) ∧ fkKeyEff ≠ "") ∨
      (dGet fkd "key" = none ∧ fkKeyEff = defaultFkKey rel pn))
    (hnul : (dGet fkd "nullable" = none ∧ nulEff = true) ∨
      (∃ b, dGet fkd "nullable" = some (.vbool b) ∧ nulEff = b)) :
    fkOptions rel pn = ("_", nulEff, fkKeyEff,
      dDrop (dDrop (dDrop fkd "prefix") "nullable") "key") := by
  unfold fkOptions
  rw [hfkd]
  dsimp only
  have hn : (match dGet fkd "nullable" with
      | some v => v.truthy | none => true) = nulEff := by
    rcases hnul with ⟨h1, h2⟩ | ⟨b, h1, h2⟩
    · rw [h1, h2]
    · rw [h1, h2]
      rfl
  have hk : (match dGet fkd "key" with
      | some v => if v.truthy = true then v.asStr else defaultFkKey rel pn
      | none => defaultFkKey rel pn) = fkKeyEff := by
    rcases hkey with ⟨h1, h2⟩ | ⟨h1, h2⟩
    · rw [h1]
      dsimp only [Val.truthy, Val.asStr]
      rw [if_pos (by simpa using (strEmpty_false_iff fkKeyEff).mpr h2)]
    · rw [h1, h2]
  rw [hn, hk, hpre]

/-! ### Claim C2: what foreign-key synthesis creates -/

/-- C2: synthesizing foreign keys for a one-to-many or many-to-one relation
creates exactly one column per primary-key column of the referenced class,
named `<fk_key>_<pk_column_name>`, with the primary-key column's type,
nullable unless `fk_nullable` says otherwise; `fk_key` is the caller's
`fk_key` when given, else the relation key lowercased for many-to-one, the
backref name lowercased for one-to-many with a backref, and the referenced
parent class name lowercased otherwise; a `ForeignKeyConstraint` over those
columns referencing the parent primary key is appended to the table. -/
theorem c2_fk_column_synthesis
    (st : DBState) (clsName parentName : String) (rel : Relation)
    (cls parent : ModelClass) (clsTable parentTable : Table)
    (fkd : Dict) (fkKeyEff : String) (nulEff : Bool)
    (hcls : st.getClass clsName = some cls)
    (hparent : st.getClass parentName = some parent)
    (hct : tablesGet st.metadata cls.tableKey = some clsTable)
    (hpt : tablesGet st.metadata parent.tableKey = some parentTable)
    (hfkd : stripKeys rel.info "fk_" 3 = fkd)
    (hpre : dGet fkd "prefix" = none)
    (hkey :
      (dGet fkd "key" = some (.vstr fkKeyEff) ∧ fkKeyEff ≠ "") ∨
      (dGet fkd "key" = none ∧
        ((rel.direction = .MANYTOONE ∧ fkKeyEff = strLower rel.key) ∨
         (rel.direction = .ONETOMANY ∧
           (∃ n d, rel.backref = some (.pair n d) ∧ fkKeyEff = strLower n)) ∨
         (rel.direction = .ONETOMANY ∧
           (rel.backref = none ∨ rel.backref = some .falsyRaw) ∧
           fkKeyEff = strLower parent.name))))
    (hnul : (dGet fkd "nullable" = none ∧ nulEff = true) ∨
      (∃ b, dGet fkd "nullable" = some (.vbool b) ∧ nulEff = b))
    (hkne : fkKeyEff ≠ "")
    (hpkne : ∀ pk ∈ parentTable.primaryKey, pk.name ≠ "")
    (hfresh1 : ∀ pk ∈ parentTable.primaryKey,
      clsTable.hasCol (fkColName fkKeyEff pk) = false)
    (hfresh2 : ∀ pk ∈ parentTable.primaryKey,
      hasAttr cls.attrs (fkAttrName "_" fkKeyEff pk) = false)
    (hndc : (parentTable.primaryKey.map (fkColName fkKeyEff)).Nodup)
    (hnda : (parentTable.primaryKey.map (fkAttrName "_" fkKeyEff)).Nodup)
    (hne : parentTable.primaryKey ≠ []) :
    ∃ newCols cons1,
      _add_foreign_keys st clsName parentName rel = .ok
        ((st.setTable cls.tableKey
            { clsTable with
              columns := clsTable.columns ++ newCols
              constraints := clsTable.constraints ++ [cons1] }).setClass
          { cls with attrs := cls.attrs ++ newCols.map Column.attrKey },
        { rel with userFKs := newCols }) ∧
      newCols.length = parentTable.primaryKey.length ∧
      List.Forall₂ (fun pk c =>
        c.name = fkKeyEff ++ "_" ++ pk.name ∧ c.ctype = pk.ctype ∧
        c.nullable = nulEff ∧ c.primaryKey = false) parentTable.primaryKey newCols ∧
      cons1.columns = newCols.map Column.name ∧
      cons1.refTable = parentTable.name ∧
      cons1.refColumns = parentTable.primaryKey.map Column.name := by
  have hkey2 : (dGet fkd "key" = some (.vstr fkKeyEff) ∧ fkKeyEff ≠ "") ∨
      (dGet fkd "key" = none ∧ fkKeyEff = defaultFkKey rel parent.name) := by
    rcases hkey with h | ⟨h1, hcase⟩
    · exact Or.inl h
    · refine Or.inr ⟨h1, ?_⟩
      rcases hcase with ⟨hdir, heq⟩ | ⟨hdir, ⟨n, d, hbr, heq⟩⟩ | ⟨hdir, hbr, heq⟩
      · rw [heq]
        unfold defaultFkKey
        rw [if_pos hdir]
      · rw [heq]
        unfold defaultFkKey
        rw [if_neg (by rw [hdir]; intro hc; exact Direction.noConfusion hc), hbr]
      · rw [heq]
        unfold defaultFkKey
        rw [if_neg (by rw [hdir]; intro hc; exact Direction.noConfusion hc)]
        rcases hbr with hbr | hbr
        · rw [hbr]
        · rw [hbr]
    
  have hopts := fkOptions_eval rel parent.name fkd fkKeyEff nulEff hfkd hpre hkey2 hnul
  refine ⟨parentTable.primaryKey.map (mkFkCol fkKeyEff "_" nulEff),
    { columns := (parentTable.primaryKey.map (mkFkCol fkKeyEff "_" nulEff)).map Column.name
      refTable := parentTable.name
      refColumns := parentTable.primaryKey.map Column.name
      kwargs := dDrop (dDrop (dDrop fkd "prefix") "nullable") "key" }, ?_, ?_, ?_, rfl, rfl, rfl⟩
  · rw [addFK_create st clsName parentName rel cls parent clsTable parentTable
      "_" fkKeyEff nulEff (dDrop (dDrop (dDrop fkd "prefix") "nullable") "key")
      hcls hparent hct hpt hopts hfresh1 hfresh2 hndc hnda hne]
    simp only [List.map_map]
    rfl
  · simp
  · exact forall₂_self_map _ _ _ (fun pk hpk =>
      ⟨fkColName_eq fkKeyEff pk hkne (hpkne pk hpk), rfl, rfl, rfl⟩)


/-- A concrete integer primary-key column. -/
def pkId : Column :=
  { name := "id", ctype := "Integer", nullable := false, primaryKey := true, attrKey := "id" }

/-- Concrete table of the declaring class. -/
def tblA : Table := { name := "a", schema := none, columns := [pkId], constraints := [], kwargs := [] }

/-- Concrete table of the remote class. -/
def tblB : Table := { name := "b", schema := none, columns := [pkId], constraints := [], kwargs := [] }

/-- Concrete remote class. -/
def wClsB : ModelClass :=
  { name := "B", tableKey := "b", attrs := ["id"], rels := [], done := [] }

/-- Concrete two-class state. -/
def wSt : DBState := { classes := [wCls, wClsB], metadata := [tblA, tblB] }

/-- A concrete many-to-one relation declared on `A` towards `B`. -/
def c2relM2O : Relation :=
  { key := "b", remote := "B", direction := .MANYTOONE, info := [], uselist := false,
    backref := none, secondary := none, userFKs := [], passedKwargs := [] }

/-- Witness for C2: many-to-one from `A` to `B` creates `A.b_id` of the
primary key's type, nullable, and a constraint referencing `b.id`. -/
theorem c2_witness :
    ∃ newCols cons1,
      _add_foreign_keys wSt "A" "B" c2relM2O = .ok
        ((wSt.setTable "a"
            { tblA with
              columns := tblA.columns ++ newCols
              constraints := tblA.constraints ++ [cons1] }).setClass
          { wCls with attrs := wCls.attrs ++ newCols.map Column.attrKey },
        { c2relM2O with userFKs := newCols }) ∧
      newCols.length = 1 ∧
      List.Forall₂ (fun pk c =>
        c.name = "b" ++ "_" ++ pk.name ∧ c.ctype = pk.ctype ∧
        c.nullable = true ∧ c.primaryKey = false) tblB.primaryKey newCols := by
  obtain ⟨newCols, cons1, h1, h2, h3, h4, h5, h6⟩ :=
    c2_fk_column_synthesis wSt "A" "B" c2relM2O wCls wClsB tblA tblB [] "b" true
      (by decide) (by decide) (by decide) (by decide) (by decide) (by decide)
      (Or.inr ⟨by decide, Or.inl ⟨by decide, by decide⟩⟩)
      (Or.inl ⟨by decide, rfl⟩) (by decide) (by decide) (by decide) (by decide)
      (by decide) (by decide) (by decide)
  exact ⟨newCols, cons1, h1, by rw [h2]; decide, h3⟩


/-! ### The association-table column map -/

theorem map_if_id2 {α : Type} (l : List α) (q : α → Prop) [DecidablePred q] (f : α → α)
    (h : ∀ a ∈ l, ¬ q a) : l.map (fun a => if q a then f a else a) = l := by
  induction l with
  | nil => rfl
  | cons x xs ih =>
    rw [List.map_cons, if_neg (h x (by simp)), ih (fun a ha => h a (by simp [ha]))]

theorem cmapFold_extend (t : Table) :
    ∀ (pks : List Column) (m : List (Table × List Column)) (cs : List Column),
    (∀ q ∈ m, q.1.key ≠ t.key) →
    (pks.map (fun pk => (t, pk))).foldl cmapStep (m ++ [(t, cs)]) =
      m ++ [(t, cs ++ pks.map (assocCol t))] := by
  intro pks
  induction pks with
  | nil =>
    intro m cs hm
    simp
  | cons pk rest ih =>
    intro m cs hm
    rw [List.map_cons, List.foldl_cons]
    have hstep : cmapStep (m ++ [(t, cs)]) (t, pk) =
        m ++ [(t, cs ++ [assocCol t pk])] := by
      unfold cmapStep
      dsimp only
      rw [if_pos (by
        rw [List.any_eq_true]
        exact ⟨(t, cs), by simp, by simp⟩)]
      rw [List.map_append]
      congr 1
      · exact map_if_id2 m (fun q => q.1.key = t.key)
          (fun q => (q.1, q.2 ++ [assocCol t pk])) hm
      · simp
    rw [hstep, ih m (cs ++ [assocCol t pk]) hm]
    simp

theorem cmapFold_start (t : Table) (pks : List Column) (m : List (Table × List Column))
    (hm : ∀ q ∈ m, q.1.key ≠ t.key) (hne : pks ≠ []) :
    (pks.map (fun pk => (t, pk))).foldl cmapStep m = m ++ [(t, pks.map (assocCol t))] := by
  cases pks with
  | nil => exact absurd rfl hne
  | cons pk rest =>
    rw [List.map_cons, List.foldl_cons]
    have hstep : cmapStep m (t, pk) = m ++ [(t, [assocCol t pk])] := by
      unfold cmapStep
      dsimp only
      rw [if_neg (by
        intro hc
        rw [List.any_eq_true] at hc
        obtain ⟨q, hq, hqk⟩ := hc
        exact hm q hq (by simpa using hqk))]
    rw [hstep, cmapFold_extend t rest m [assocCol t pk] hm]
    simp

theorem cmapFold_two (t1 t2 : Table) (pks1 pks2 : List Column)
    (hne : t1.key ≠ t2.key) (h1 : pks1 ≠ []) (h2 : pks2 ≠ []) :
    (pks1.map (fun pk => (t1, pk)) ++ pks2.map (fun pk => (t2, pk))).foldl cmapStep [] =
      [(t1, pks1.map (assocCol t1)), (t2, pks2.map (assocCol t2))] := by
  rw [List.foldl_append, cmapFold_start t1 pks1 [] (by simp) h1]
  simp only [List.nil_append]
  rw [cmapFold_start t2 pks2 [(t1, pks1.map (assocCol t1))] ?h h2]
  case h =>
    intro q hq
    rw [List.mem_singleton.mp hq]
    exact fun hc => hne hc
  rfl

/-! ### Characterisations of `_add_association_table` -/

/-- A relation that already has a secondary is left alone. -/
theorem assoc_skip_secondary (st : DBState) (clsName childName : String)
    (rel : Relation) (h : rel.secondary.isSome = true) :
    _add_association_table st clsName childName rel = .ok (st, rel) := by
  unfold _add_association_table
  rw [if_pos h]

/-- A metadata table found under the bare table_name is reused as secondary;
nothing is created. -/
theorem assoc_reuse_table (st : DBState) (clsName childName : String)
    (rel : Relation) (t : Table) (tn : String)
    (hsec : rel.secondary = none)
    (htn : dGet rel.info "table_name" = some (.vstr tn))
    (hfound : tablesGet st.metadata tn = some t) :
    _add_association_table st clsName childName rel =
      .ok (st, { rel with secondary := some t }) := by
  unfold _add_association_table
  rw [hsec]
  simp only [Option.isSome_none, Bool.false_eq_true, if_false]
  rw [htn]
  dsimp only
  rw [hfound]

/-- Creation case of `_add_association_table`: the table is synthesized from
the two sides' primary keys and appended to the metadata. -/
theorem assoc_create (st : DBState) (clsName childName : String) (rel : Relation)
    (cls child : ModelClass) (clsTable childTable : Table) (tn : String)
    (hsec : rel.secondary = none)
    (htn : dGet rel.info "table_name" = some (.vstr tn))
    (hmiss : tablesGet st.metadata tn = none)
    (hcls : st.getClass clsName = some cls)
    (hchild : st.getClass childName = some child)
    (hct : tablesGet st.metadata cls.tableKey = some clsTable)
    (hcht : tablesGet st.metadata child.tableKey = some childTable)
    (hkne : clsTable.key ≠ childTable.key)
    (hp1 : clsTable.primaryKey ≠ [])
    (hp2 : childTable.primaryKey ≠ [])
    (hfresh : tablesGet st.metadata
      (buildAssocTable tn clsTable.schema (stripKeys rel.info "fk_" 3)
        (dDrop (stripKeys rel.info "table_" 6) "name")
        [(clsTable, clsTable.primaryKey.map (assocCol clsTable)),
         (childTable, childTable.primaryKey.map (assocCol childTable))]).key = none) :
    _add_association_table st clsName childName rel = .ok
      ({ st with metadata := st.metadata ++
          [buildAssocTable tn clsTable.schema (stripKeys rel.info "fk_" 3)
            (dDrop (stripKeys rel.info "table_" 6) "name")
            [(clsTable, clsTable.primaryKey.map (assocCol clsTable)),
             (childTable, childTable.primaryKey.map (assocCol childTable))]] },
        { rel with secondary := some (buildAssocTable tn clsTable.schema
            (stripKeys rel.info "fk_" 3) (dDrop (stripKeys rel.info "table_" 6) "name")
            [(clsTable, clsTable.primaryKey.map (assocCol clsTable)),
             (childTable, childTable.primaryKey.map (assocCol childTable))]) }) := by
  unfold _add_association_table
  rw [hsec]
  simp only [Option.isSome_none, Bool.false_eq_true, if_false]
  rw [htn]
  dsimp only
  rw [hmiss]
  dsimp only
  rw [hcls, hchild]
  dsimp only
  rw [hct, hcht]
  dsimp only
  rw [cmapFold_two clsTable childTable clsTable.primaryKey childTable.primaryKey
    hkne hp1 hp2]
  rw [hfresh]
  simp only [Option.isSome_none, Bool.false_eq_true, if_false]


/-! ### Claim C3: contents of the generated association table -/

/-- C3 (amended: the side table names are lowercased in the generated column
names): resolving a many-to-many relation with no secondary and no existing
table of the given name creates a table named `table_name` in the shared
metadata with the declaring table's schema, holding one primary-key column
per primary-key column of each side, named
`<side_table_name lowercased>_<pk_column_name>` with the same type, and one
`ForeignKeyConstraint` per side mapping that side's generated columns to that
side's primary key. -/
theorem c3_assoc_table_contents
    (st : DBState) (clsName childName : String) (rel : Relation)
    (cls child : ModelClass) (clsTable childTable : Table) (tn : String)
    (hsec : rel.secondary = none)
    (htn : dGet rel.info "table_name" = some (.vstr tn))
    (hmiss : tablesGet st.metadata tn = none)
    (hcls : st.getClass clsName = some cls)
    (hchild : st.getClass childName = some child)
    (hct : tablesGet st.metadata cls.tableKey = some clsTable)
    (hcht : tablesGet st.metadata child.tableKey = some childTable)
    (hkne : clsTable.key ≠ childTable.key)
    (hp1 : clsTable.primaryKey ≠ [])
    (hp2 : childTable.primaryKey ≠ [])
    (hfresh : tablesGet st.metadata
      (buildAssocTable tn clsTable.schema (stripKeys rel.info "fk_" 3)
        (dDrop (stripKeys rel.info "table_" 6) "name")
        [(clsTable, clsTable.primaryKey.map (assocCol clsTable)),
         (childTable, childTable.primaryKey.map (assocCol childTable))]).key = none)
    (hna : clsTable.name ≠ "") (hnb : childTable.name ≠ "")
    (hpkn1 : ∀ pk ∈ clsTable.primaryKey, pk.name ≠ "")
    (hpkn2 : ∀ pk ∈ childTable.primaryKey, pk.name ≠ "") :
    ∃ T colsA colsB,
      _add_association_table st clsName childName rel = .ok
        ({ st with metadata := st.metadata ++ [T] },
          { rel with secondary := some T }) ∧
      T.name = tn ∧
      T.schema = clsTable.schema ∧
      T.columns = colsA ++ colsB ∧
      List.Forall₂ (fun pk c =>
        c.name = strLower clsTable.name ++ "_" ++ pk.name ∧
        c.ctype = pk.ctype ∧ c.primaryKey = true) clsTable.primaryKey colsA ∧
      List.Forall₂ (fun pk c =>
        c.name = strLower childTable.name ++ "_" ++ pk.name ∧
        c.ctype = pk.ctype ∧ c.primaryKey = true) childTable.primaryKey colsB ∧
      T.constraints = [
        { columns := colsA.map Column.name
          refTable := clsTable.name
          refColumns := clsTable.primaryKey.map Column.name
          kwargs := stripKeys rel.info "fk_" 3 },
        { columns := colsB.map Column.name
          refTable := childTable.name
          refColumns := childTable.primaryKey.map Column.name
          kwargs := stripKeys rel.info "fk_" 3 }] := by
  refine ⟨buildAssocTable tn clsTable.schema (stripKeys rel.info "fk_" 3)
      (dDrop (stripKeys rel.info "table_" 6) "name")
      [(clsTable, clsTable.primaryKey.map (assocCol clsTable)),
       (childTable, childTable.primaryKey.map (assocCol childTable))],
    clsTable.primaryKey.map (assocCol clsTable),
    childTable.primaryKey.map (assocCol childTable),
    assoc_create st clsName childName rel cls child clsTable childTable tn
      hsec htn hmiss hcls hchild hct hcht hkne hp1 hp2 hfresh,
    rfl, rfl, ?_, ?_, ?_, rfl⟩
  · simp [buildAssocTable]
  · exact forall₂_self_map _ _ _ (fun pk hpk =>
      ⟨joinNonEmpty_two _ _ (strLower_ne_empty _ hna) (hpkn1 pk hpk), rfl, rfl⟩)
  · exact forall₂_self_map _ _ _ (fun pk hpk =>
      ⟨joinNonEmpty_two _ _ (strLower_ne_empty _ hnb) (hpkn2 pk hpk), rfl, rfl⟩)

/-- Concrete many-to-many relation from `A` to `B` carrying a table name. -/
def c3relAB : Relation :=
  { key := "bs", remote := "B", direction := .MANYTOMANY,
    info := [("table_name", .vstr "a_b")], uselist := true, backref := none,
    secondary := none, userFKs := [], passedKwargs := [] }

/-- Witness for C3 on lowercase table names. -/
theorem c3_witness :
    ∃ T colsA colsB,
      _add_association_table wSt "A" "B" c3relAB = .ok
        ({ wSt with metadata := wSt.metadata ++ [T] },
          { c3relAB with secondary := some T }) ∧
      T.name = "a_b" ∧
      T.schema = tblA.schema ∧
      T.columns = colsA ++ colsB ∧
      List.Forall₂ (fun pk c =>
        c.name = strLower tblA.name ++ "_" ++ pk.name ∧
        c.ctype = pk.ctype ∧ c.primaryKey = true) tblA.primaryKey colsA ∧
      List.Forall₂ (fun pk c =>
        c.name = strLower tblB.name ++ "_" ++ pk.name ∧
        c.ctype = pk.ctype ∧ c.primaryKey = true) tblB.primaryKey colsB ∧
      T.constraints = [
        { columns := colsA.map Column.name
          refTable := tblA.name
          refColumns := tblA.primaryKey.map Column.name
          kwargs := stripKeys c3relAB.info "fk_" 3 },
        { columns := colsB.map Column.name
          refTable := tblB.name
          refColumns := tblB.primaryKey.map Column.name
          kwargs := stripKeys c3relAB.info "fk_" 3 }] := by
  exact c3_assoc_table_contents wSt "A" "B" c3relAB wCls wClsB tblA tblB "a_b"
    (by decide) (by decide) (by decide) (by decide) (by decide) (by decide)
    (by decide) (by decide) (by decide) (by decide) (by decide) (by decide)
    (by decide) (by decide) (by decide)

/-- The declaring class table with an uppercase name. -/
def tblFoo : Table :=
  { name := "Foo", schema := none, columns := [pkId], constraints := [], kwargs := [] }

/-- The declaring class mapped to the uppercase table. -/
def wClsFoo : ModelClass :=
  { name := "FooCls", tableKey := "Foo", attrs := ["id"], rels := [], done := [] }

/-- Concrete many-to-many relation declared on the uppercase-named table. -/
def c3relFoo : Relation :=
  { key := "bs", remote := "B", direction := .MANYTOMANY,
    info := [("table_name", .vstr "foobars")], uselist := true, backref := none,
    secondary := none, userFKs := [], passedKwargs := [] }

/-- State holding the uppercase-named table. -/
def c3st : DBState := { classes := [wClsFoo, wClsB], metadata := [tblFoo, tblB] }

/-- The generated association-table column names at the concrete input. -/
def c3resultNames : List String :=
  match _add_association_table c3st "FooCls" "B" c3relFoo with
  | .ok (stx, _) =>
    match tablesGet stx.metadata "foobars" with
    | some T => T.columns.map Column.name
    | none => []
  | .error _ => []

/-- Counterexample to C3 as stated: the declaring table is named `Foo`, yet
the generated column is `foo_id` (table name lowercased), not the claimed
`<side_table_name>_<pk_column_name>` = `Foo_id`. -/
theorem c3_counterexample :
    c3resultNames = ["foo_id", "b_id"] ∧ "Foo_id" ∉ c3resultNames := by
  constructor
  · decide
  · decide


/-! ### Handler-level lemmas -/

theorem tablesGet_key (md : MetaData) (k : String) (t : Table)
    (h : tablesGet md k = some t) : t.key = k := by
  simpa using List.find?_some h

theorem tablesGet_append (md md2 : MetaData) (k : String)
    (h : tablesGet md k = none) : tablesGet (md ++ md2) k = tablesGet md2 k := by
  unfold tablesGet at *
  induction md with
  | nil => rfl
  | cons x md ih =>
    rw [List.find?_cons] at h
    cases hx : decide (x.key = k) with
    | true => rw [hx] at h; exact absurd h (by simp)
    | false =>
      rw [hx] at h
      rw [List.cons_append, List.find?_cons, hx]
      exact ih h

theorem setClass_idem (st : DBState) (c : ModelClass) :
    (st.setClass c).setClass c = st.setClass c := by
  unfold DBState.setClass
  simp only [List.map_map]
  congr 1
  apply List.map_congr_left
  intro a _
  by_cases h : a.name = c.name <;> simp [h, Function.comp]

/-- Unfolding the handler for a class with a single pending relationship. -/
theorem handler_single (st : DBState) (clsName : String) (cls : ModelClass)
    (r : Relation) (st1 : DBState) (r1 : Relation) (c1 : ModelClass)
    (hcls : st.getClass clsName = some cls) (hrels : cls.rels = [r])
    (hres : resolveOne st clsName r = .ok (st1, r1))
    (hc1 : st1.getClass clsName = some c1) :
    declare_first_relationships_handler st clsName =
      .ok (st1.setClass { c1 with rels := [], done := c1.done ++ [r1] }) := by
  unfold declare_first_relationships_handler
  rw [hcls]
  dsimp only
  rw [hrels]
  unfold resolveAll
  rw [hres]
  dsimp only
  rw [show resolveAll clsName st1 [] = .ok (st1, []) from rfl]
  dsimp only
  rw [hc1]

/-- Inversion of a successful handler run. -/
theorem handler_inv (st : DBState) (clsName : String) (st1 : DBState)
    (hok : declare_first_relationships_handler st clsName = .ok st1) :
    ∃ cls stmid resolved c1,
      st.getClass clsName = some cls ∧
      resolveAll clsName st cls.rels = .ok (stmid, resolved) ∧
      stmid.getClass clsName = some c1 ∧
      st1 = stmid.setClass { c1 with rels := [], done := c1.done ++ resolved } := by
  unfold declare_first_relationships_handler at hok
  cases hcls : st.getClass clsName with
  | none =>
    rw [hcls] at hok
    exact absurd hok (by simp)
  | some cls =>
    rw [hcls] at hok
    dsimp only at hok
    cases hres : resolveAll clsName st cls.rels with
    | error e =>
      rw [hres] at hok
      exact absurd hok (by simp)
    | ok p =>
      obtain ⟨stmid, resolved⟩ := p
      rw [hres] at hok
      dsimp only at hok
      cases hc1 : stmid.getClass clsName with
      | none =>
        rw [hc1] at hok
        exact absurd hok (by simp)
      | some c1 =>
        rw [hc1] at hok
        dsimp only at hok
        injection hok with h
        exact ⟨cls, stmid, resolved, c1, rfl, hres, hc1, h.symm⟩


theorem getClass_name (st : DBState) (n : String) (c : ModelClass)
    (h : st.getClass n = some c) : c.name = n := by
  simpa using List.find?_some h

/-! ### Claim C7: back_populates pairs share the association table -/

/-- C7 (amended: provided the declaring classes' tables have no schema): for
two many-to-many declarations linked by `back_populates` with the same
`table_name`, the side resolved first creates the association table in the
shared metadata and the second side finds it by name and adopts it as its
secondary, creating nothing. -/
theorem c7_shared_association_table
    (st : DBState) (nA nB tn : String) (cA cB : ModelClass) (r1 r2 : Relation)
    (tA tB : Table)
    (hAB : nA ≠ nB)
    (hA : st.getClass nA = some cA) (hB : st.getClass nB = some cB)
    (hrelsA : cA.rels = [r1]) (hrelsB : cB.rels = [r2])
    (hd1 : r1.direction = .MANYTOMANY) (hd2 : r2.direction = .MANYTOMANY)
    (hr1 : r1.remote = nB) (hr2 : r2.remote = nA)
    (hs1 : r1.secondary = none) (hs2 : r2.secondary = none)
    (ht1 : dGet r1.info "table_name" = some (.vstr tn))
    (ht2 : dGet r2.info "table_name" = some (.vstr tn))
    (hbp1 : dGet r1.passedKwargs "back_populates" = some (.vstr r2.key))
    (hbp2 : dGet r2.passedKwargs "back_populates" = some (.vstr r1.key))
    (hctA : tablesGet st.metadata cA.tableKey = some tA)
    (hctB : tablesGet st.metadata cB.tableKey = some tB)
    (hschA : tA.schema = none)
    (hkne : tA.key ≠ tB.key)
    (hp1 : tA.primaryKey ≠ []) (hp2 : tB.primaryKey ≠ [])
    (hmiss : tablesGet st.metadata tn = none) :
    ∃ T stA stB,
      declare_first_relationships_handler st nA = .ok stA ∧
      declare_first_relationships_handler stA nB = .ok stB ∧
      T.name = tn ∧
      stA.metadata = st.metadata ++ [T] ∧
      stB.metadata = stA.metadata ∧
      ∃ dA dB, stB.getClass nA = some dA ∧ stB.getClass nB = some dB ∧
        dA.done = cA.done ++ [{ r1 with secondary := some T }] ∧
        dB.done = cB.done ++ [{ r2 with secondary := some T }] := by
  have hnameA : cA.name = nA := getClass_name st nA cA hA
  have hnameB : cB.name = nB := getClass_name st nB cB hB
  have hTkey : (buildAssocTable tn tA.schema (stripKeys r1.info "fk_" 3)
      (dDrop (stripKeys r1.info "table_" 6) "name")
      [(tA, tA.primaryKey.map (assocCol tA)),
       (tB, tB.primaryKey.map (assocCol tB))]).key = tn := by
    unfold buildAssocTable Table.key
    rw [hschA]
  have hfresh : tablesGet st.metadata
      (buildAssocTable tn tA.schema (stripKeys r1.info "fk_" 3)
        (dDrop (stripKeys r1.info "table_" 6) "name")
        [(tA, tA.primaryKey.map (assocCol tA)),
         (tB, tB.primaryKey.map (assocCol tB))]).key = none := by
    rw [hTkey]
    exact hmiss
  have hassoc := assoc_create st nA nB r1 cA cB tA tB tn hs1 ht1 hmiss hA hB
    hctA hctB hkne hp1 hp2 hfresh
  set T := buildAssocTable tn tA.schema (stripKeys r1.info "fk_" 3)
    (dDrop (stripKeys r1.info "table_" 6) "name")
    [(tA, tA.primaryKey.map (assocCol tA)),
     (tB, tB.primaryKey.map (assocCol tB))] with hT
  have hBr : st.getClass r1.remote = some cB := by rw [hr1]; exact hB
  have hres1 : resolveOne st nA r1 =
      .ok ({ st with metadata := st.metadata ++ [T] },
        { r1 with secondary := some T }) := by
    unfold resolveOne
    rw [hBr]
    dsimp only
    conv_lhs => rw [hd1]
    dsimp only
    rw [hnameB]
    exact hassoc
  have hget1A : DBState.getClass { st with metadata := st.metadata ++ [T] } nA =
      some cA := hA
  have hhandlerA := handler_single st nA cA r1
    { st with metadata := st.metadata ++ [T] } { r1 with secondary := some T } cA
    hA hrelsA hres1 hget1A
  set cA1 : ModelClass :=
    { cA with rels := [], done := cA.done ++ [{ r1 with secondary := some T }] } with hcA1
  set stA : DBState :=
    (DBState.setClass { st with metadata := st.metadata ++ [T] } cA1) with hstA
  have hgetAB : stA.getClass nB = some cB := by
    rw [hstA]
    rw [getClass_setClass_ne _ _ _ (by
      show nB ≠ cA1.name
      rw [show cA1.name = cA.name from rfl, hnameA]
      exact fun hc => hAB hc.symm)]
    exact hB
  have hgetAA : stA.getClass nA = some cA1 := by
    rw [hstA]
    exact getClass_setClass_self _ _ _ (by rw [hget1A]; rfl)
      (by rw [show cA1.name = cA.name from rfl, hnameA])
  have hfound : tablesGet stA.metadata tn = some T := by
    show tablesGet (st.metadata ++ [T]) tn = some T
    rw [tablesGet_append st.metadata [T] tn hmiss]
    unfold tablesGet
    rw [List.find?_cons, show (decide (T.key = tn) = true) by simp [hTkey]]
  have hassoc2 := assoc_reuse_table stA nB nA r2 T tn hs2 ht2 hfound
  have hAr : stA.getClass r2.remote = some cA1 := by rw [hr2]; exact hgetAA
  have hres2 : resolveOne stA nB r2 = .ok (stA, { r2 with secondary := some T }) := by
    unfold resolveOne
    rw [hAr]
    dsimp only
    conv_lhs => rw [hd2]
    dsimp only
    rw [show cA1.name = nA from by rw [show cA1.name = cA.name from rfl, hnameA]]
    exact hassoc2
  have hhandlerB := handler_single stA nB cB r2 stA { r2 with secondary := some T } cB
    hgetAB hrelsB hres2 hgetAB
  set cB1 : ModelClass :=
    { cB with rels := [], done := cB.done ++ [{ r2 with secondary := some T }] } with hcB1
  set stB : DBState := stA.setClass cB1 with hstB
  refine ⟨T, stA, stB, hhandlerA, hhandlerB, rfl, rfl, rfl, cA1, cB1, ?_, ?_, rfl, rfl⟩
  · rw [hstB]
    rw [getClass_setClass_ne _ _ _ (by
      show nA ≠ cB1.name
      rw [show cB1.name = cB.name from rfl, hnameB]
      exact hAB)]
    exact hgetAA
  · rw [hstB]
    exact getClass_setClass_self _ _ _ (by rw [hgetAB]; rfl)
      (by rw [show cB1.name = cB.name from rfl, hnameB])


/-- First side of a concrete back_populates pair. -/
def c7r1 : Relation :=
  { key := "bs", remote := "B", direction := .MANYTOMANY,
    info := [("table_name", .vstr "assoc")], uselist := true, backref := none,
    secondary := none, userFKs := [],
    passedKwargs := [("back_populates", .vstr "as")] }

/-- Second side of a concrete back_populates pair. -/
def c7r2 : Relation :=
  { key := "as", remote := "A", direction := .MANYTOMANY,
    info := [("table_name", .vstr "assoc")], uselist := true, backref := none,
    secondary := none, userFKs := [],
    passedKwargs := [("back_populates", .vstr "bs")] }

/-- Declaring class `A` with its pending side. -/
def c7clsA : ModelClass :=
  { name := "A", tableKey := "a", attrs := ["id"], rels := [c7r1], done := [] }

/-- Declaring class `B` with its pending side. -/
def c7clsB : ModelClass :=
  { name := "B", tableKey := "b", attrs := ["id"], rels := [c7r2], done := [] }

/-- Concrete state with both pending many-to-many sides. -/
def c7st : DBState := { classes := [c7clsA, c7clsB], metadata := [tblA, tblB] }

/-- Witness for C7 at the concrete schemaless pair. -/
theorem c7_witness :
    ∃ T stA stB,
      declare_first_relationships_handler c7st "A" = .ok stA ∧
      declare_first_relationships_handler stA "B" = .ok stB ∧
      T.name = "assoc" ∧
      stA.metadata = c7st.metadata ++ [T] ∧
      stB.metadata = stA.metadata ∧
      ∃ dA dB, stB.getClass "A" = some dA ∧ stB.getClass "B" = some dB ∧
        dA.done = c7clsA.done ++ [{ c7r1 with secondary := some T }] ∧
        dB.done = c7clsB.done ++ [{ c7r2 with secondary := some T }] := by
  exact c7_shared_association_table c7st "A" "B" "assoc" c7clsA c7clsB c7r1 c7r2
    tblA tblB (by decide) (by decide) (by decide) (by decide) (by decide)
    (by decide) (by decide) (by decide) (by decide) (by decide) (by decide)
    (by decide) (by decide) (by decide) (by decide) (by decide) (by decide)
    (by decide) (by decide) (by decide) (by decide) (by decide)

/-- The table of class `A` placed in a schema. -/
def tblAs : Table :=
  { name := "a", schema := some "s", columns := [pkId], constraints := [], kwargs := [] }

/-- Class `A` mapped to the schema-qualified table. -/
def c7clsAs : ModelClass :=
  { name := "A", tableKey := "s.a", attrs := ["id"], rels := [c7r1], done := [] }

/-- The same pair of declarations, but the first side's table has a schema. -/
def c7stS : DBState := { classes := [c7clsAs, c7clsB], metadata := [tblAs, tblB] }

/-- The two secondaries after resolving both sides of the schema scenario. -/
def c7secondaries : Option (Option Table × Option Table) :=
  match declare_first_relationships_handler c7stS "A" with
  | .ok st1 =>
    match declare_first_relationships_handler st1 "B" with
    | .ok st2 =>
      match st2.getClass "A", st2.getClass "B" with
      | some dA, some dB =>
        match dA.done, dB.done with
        | [ra], [rb] => some (ra.secondary, rb.secondary)
        | _, _ => none
      | _, _ => none
    | .error _ => none
  | .error _ => none

/-- Whether both sides ended with the same secondary table. -/
def c7sameTable : Option Bool :=
  c7secondaries.map (fun p => decide (p.1 = p.2))

/-- Counterexample to C7 as stated: when the first declaring table has a
schema, the created table is keyed `s.assoc` in the metadata, the second
side's bare-name lookup of `assoc` misses it, and a second, different table
is created — the two relations do not share the association table. -/
theorem c7_counterexample :
    c7sameTable = some false ∧
    (c7secondaries.map (fun p => p.1.isSome && p.2.isSome)) = some true := by
  constructor
  · decide
  · decide


/-! ### Claim C1: the declare-first handler resolves by direction -/

/-- C1: for a class with a pending relationship, the handler resolves it by
direction: a ONETOMANY relation gets foreign-key columns and a constraint
added to the remote class's table referencing the declaring class's table; a
MANYTOONE relation gets them added to the declaring class's table referencing
the remote class's table; a MANYTOMANY relation gets an association table
synthesized in the metadata. -/
theorem c1_handler_dispatch :
    (∀ (st : DBState) (dn rn : String) (dCls rCls : ModelClass) (r : Relation)
      (dTbl rTbl : Table) (fkPre fkKey : String) (nul : Bool) (fkkw : Dict),
      st.getClass dn = some dCls → dCls.rels = [r] →
      r.direction = .ONETOMANY → r.remote = rn → rn ≠ dn →
      st.getClass rn = some rCls →
      tablesGet st.metadata rCls.tableKey = some rTbl →
      tablesGet st.metadata dCls.tableKey = some dTbl →
      fkOptions r dCls.name = (fkPre, nul, fkKey, fkkw) →
      (∀ pk ∈ dTbl.primaryKey, rTbl.hasCol (fkColName fkKey pk) = false) →
      (∀ pk ∈ dTbl.primaryKey, hasAttr rCls.attrs (fkAttrName fkPre fkKey pk) = false) →
      (dTbl.primaryKey.map (fkColName fkKey)).Nodup →
      (dTbl.primaryKey.map (fkAttrName fkPre fkKey)).Nodup →
      dTbl.primaryKey ≠ [] →
      ∃ st' tbl2, declare_first_relationships_handler st dn = .ok st' ∧
        tablesGet st'.metadata rCls.tableKey = some tbl2 ∧
        tbl2.columns = rTbl.columns ++ dTbl.primaryKey.map (mkFkCol fkKey fkPre nul) ∧
        tbl2.constraints = rTbl.constraints ++
          [{ columns := dTbl.primaryKey.map (fkColName fkKey)
             refTable := dTbl.name
             refColumns := dTbl.primaryKey.map Column.name
             kwargs := fkkw }]) ∧
    (∀ (st : DBState) (dn rn : String) (dCls rCls : ModelClass) (r : Relation)
      (dTbl rTbl : Table) (fkPre fkKey : String) (nul : Bool) (fkkw : Dict),
      st.getClass dn = some dCls → dCls.rels = [r] →
      r.direction = .MANYTOONE → r.remote = rn →
      st.getClass rn = some rCls →
      tablesGet st.metadata rCls.tableKey = some rTbl →
      tablesGet st.metadata dCls.tableKey = some dTbl →
      fkOptions r rCls.name = (fkPre, nul, fkKey, fkkw) →
      (∀ pk ∈ rTbl.primaryKey, dTbl.hasCol (fkColName fkKey pk) = false) →
      (∀ pk ∈ rTbl.primaryKey, hasAttr dCls.attrs (fkAttrName fkPre fkKey pk) = false) →
      (rTbl.primaryKey.map (fkColName fkKey)).Nodup →
      (rTbl.primaryKey.map (fkAttrName fkPre fkKey)).Nodup →
      rTbl.primaryKey ≠ [] →
      ∃ st' tbl2, declare_first_relationships_handler st dn = .ok st' ∧
        tablesGet st'.metadata dCls.tableKey = some tbl2 ∧
        tbl2.columns = dTbl.columns ++ rTbl.primaryKey.map (mkFkCol fkKey fkPre nul) ∧
        tbl2.constraints = dTbl.constraints ++
          [{ columns := rTbl.primaryKey.map (fkColName fkKey)
             refTable := rTbl.name
             refColumns := rTbl.primaryKey.map Column.name
             kwargs := fkkw }]) ∧
    (∀ (st : DBState) (dn rn tn : String) (dCls rCls : ModelClass) (r : Relation)
      (dTbl rTbl : Table),
      st.getClass dn = some dCls → dCls.rels = [r] →
      r.direction = .MANYTOMANY → r.remote = rn →
      r.secondary = none →
      dGet r.info "table_name" = some (.vstr tn) →
      tablesGet st.metadata tn = none →
      st.getClass rn = some rCls →
      tablesGet st.metadata dCls.tableKey = some dTbl →
      tablesGet st.metadata rCls.tableKey = some rTbl →
      dTbl.key ≠ rTbl.key →
      dTbl.primaryKey ≠ [] → rTbl.primaryKey ≠ [] →
      dTbl.schema = none →
      ∃ st' T, declare_first_relationships_handler st dn = .ok st' ∧
        st'.metadata = st.metadata ++ [T] ∧ T.name = tn) := by
  refine ⟨?_, ?_, ?_⟩
  · intro st dn rn dCls rCls r dTbl rTbl fkPre fkKey nul fkkw
      hD hrels hdir hrem hne hR hrt hdt hopts hf1 hf2 hndc hnda hpne
    have hrn : rCls.name = rn := getClass_name st rn rCls hR
    have hadd := addFK_create st rn dn r rCls dCls rTbl dTbl fkPre fkKey nul fkkw
      hR hD hrt hdt hopts hf1 hf2 hndc hnda hpne
    set tbl2 : Table :=
      { rTbl with
        columns := rTbl.columns ++ dTbl.primaryKey.map (mkFkCol fkKey fkPre nul)
        constraints := rTbl.constraints ++
          [{ columns := dTbl.primaryKey.map (fkColName fkKey)
             refTable := dTbl.name
             refColumns := dTbl.primaryKey.map Column.name
             kwargs := fkkw }] } with htbl2
    set rCls1 : ModelClass :=
      { rCls with attrs := rCls.attrs ++ dTbl.primaryKey.map (fkAttrName fkPre fkKey) }
      with hrCls1
    set r1 : Relation :=
      { r with userFKs := dTbl.primaryKey.map (mkFkCol fkKey fkPre nul) } with hr1
    have hrr : st.getClass r.remote = some rCls := by rw [hrem]; exact hR
    have hres : resolveOne st dn r =
        .ok ((st.setTable rCls.tableKey tbl2).setClass rCls1, r1) := by
      unfold resolveOne
      rw [hrr]
      dsimp only
      conv_lhs => rw [hdir]
      dsimp only
      conv_lhs => rw [hrn]
      exact hadd
    have htbl2key : tbl2.key = rCls.tableKey := by
      rw [htbl2]
      show rTbl.key = rCls.tableKey
      exact tablesGet_key st.metadata rCls.tableKey rTbl hrt
    have hc1 : ((st.setTable rCls.tableKey tbl2).setClass rCls1).getClass dn =
        some dCls := by
      rw [getClass_setClass_ne _ _ _ ?hne2]
      case hne2 =>
        rw [hrCls1]
        show dn ≠ rCls.name
        rw [hrn]
        exact fun hc => hne hc.symm
      exact hD
    have hh := handler_single st dn dCls r _ r1 dCls hD hrels hres hc1
    refine ⟨_, tbl2, hh, ?_, by rw [htbl2], by rw [htbl2]⟩
    show tablesGet (st.metadata.map
      (fun x => if x.key = rCls.tableKey then tbl2 else x)) rCls.tableKey = some tbl2
    exact tablesGet_replace_self st.metadata rCls.tableKey tbl2 (by rw [hrt]; rfl)
      htbl2key
  · intro st dn rn dCls rCls r dTbl rTbl fkPre fkKey nul fkkw
      hD hrels hdir hrem hR hrt hdt hopts hf1 hf2 hndc hnda hpne
    have hrn : rCls.name = rn := getClass_name st rn rCls hR
    have hdn : dCls.name = dn := getClass_name st dn dCls hD
    have hadd := addFK_create st dn rn r dCls rCls dTbl rTbl fkPre fkKey nul fkkw
      hD hR hdt hrt hopts hf1 hf2 hndc hnda hpne
    set tbl2 : Table :=
      { dTbl with
        columns := dTbl.columns ++ rTbl.primaryKey.map (mkFkCol fkKey fkPre nul)
        constraints := dTbl.constraints ++
          [{ columns := rTbl.primaryKey.map (fkColName fkKey)
             refTable := rTbl.name
             refColumns := rTbl.primaryKey.map Column.name
             kwargs := fkkw }] } with htbl2
    set dCls1 : ModelClass :=
      { dCls with attrs := dCls.attrs ++ rTbl.primaryKey.map (fkAttrName fkPre fkKey) }
      with hdCls1
    set r1 : Relation :=
      { r with userFKs := rTbl.primaryKey.map (mkFkCol fkKey fkPre nul) } with hr1
    have hrr : st.getClass r.remote = some rCls := by rw [hrem]; exact hR
    have hres : resolveOne st dn r =
        .ok ((st.setTable dCls.tableKey tbl2).setClass dCls1, r1) := by
      unfold resolveOne
      rw [hrr]
      dsimp only
      conv_lhs => rw [hdir]
      dsimp only
      conv_lhs => rw [hrn]
      exact hadd
    have htbl2key : tbl2.key = dCls.tableKey := by
      rw [htbl2]
      show dTbl.key = dCls.tableKey
      exact tablesGet_key st.metadata dCls.tableKey dTbl hdt
    have hc1 : ((st.setTable dCls.tableKey tbl2).setClass dCls1).getClass dn =
        some dCls1 := by
      apply getClass_setClass_self
      · show ((st.setTable dCls.tableKey tbl2).getClass dn).isSome = true
        rw [show (st.setTable dCls.tableKey tbl2).getClass dn = st.getClass dn
          from rfl, hD]
        rfl
      · rw [hdCls1]
        show dCls.name = dn
        exact hdn
    have hh := handler_single st dn dCls r _ r1 dCls1 hD hrels hres hc1
    refine ⟨_, tbl2, hh, ?_, by rw [htbl2], by rw [htbl2]⟩
    show tablesGet (st.metadata.map
      (fun x => if x.key = dCls.tableKey then tbl2 else x)) dCls.tableKey = some tbl2
    exact tablesGet_replace_self st.metadata dCls.tableKey tbl2 (by rw [hdt]; rfl)
      htbl2key
  · intro st dn rn tn dCls rCls r dTbl rTbl
      hD hrels hdir hrem hsec htn hmiss hR hdt hrt hkne hp1 hp2 hsch
    have hrn : rCls.name = rn := getClass_name st rn rCls hR
    have hTkey : (buildAssocTable tn dTbl.schema (stripKeys r.info "fk_" 3)
        (dDrop (stripKeys r.info "table_" 6) "name")
        [(dTbl, dTbl.primaryKey.map (assocCol dTbl)),
         (rTbl, rTbl.primaryKey.map (assocCol rTbl))]).key = tn := by
      unfold buildAssocTable Table.key
      rw [hsch]
    have hassoc := assoc_create st dn rn r dCls rCls dTbl rTbl tn hsec htn hmiss
      hD hR hdt hrt hkne hp1 hp2 (by rw [hTkey]; exact hmiss)
    set T : Table := buildAssocTable tn dTbl.schema (stripKeys r.info "fk_" 3)
      (dDrop (stripKeys r.info "table_" 6) "name")
      [(dTbl, dTbl.primaryKey.map (assocCol dTbl)),
       (rTbl, rTbl.primaryKey.map (assocCol rTbl))] with hT
    set r1 : Relation := { r with secondary := some T } with hr1
    have hrr : st.getClass r.remote = some rCls := by rw [hrem]; exact hR
    have hres : resolveOne st dn r =
        .ok ({ st with metadata := st.metadata ++ [T] }, r1) := by
      unfold resolveOne
      rw [hrr]
      dsimp only
      conv_lhs => rw [hdir]
      dsimp only
      conv_lhs => rw [hrn]
      exact hassoc
    have hc1 : DBState.getClass { st with metadata := st.metadata ++ [T] } dn =
        some dCls := hD
    have hh := handler_single st dn dCls r _ r1 dCls hD hrels hres hc1
    exact ⟨_, T, hh, rfl, by rw [hT]; rfl⟩


/-- Concrete one-to-many relation pending on `A`. -/
def c1rO2M : Relation :=
  { key := "bs", remote := "B", direction := .ONETOMANY, info := [], uselist := true,
    backref := some (.pair "a" [("uselist", .vbool false)]), secondary := none,
    userFKs := [], passedKwargs := [] }

/-- Class `A` with the pending one-to-many relation. -/
def c1clsA : ModelClass :=
  { name := "A", tableKey := "a", attrs := ["id"], rels := [c1rO2M], done := [] }

/-- State for the one-to-many witness. -/
def c1st : DBState := { classes := [c1clsA, wClsB], metadata := [tblA, tblB] }

/-- Class `A` with the pending many-to-one relation. -/
def c1clsA2 : ModelClass :=
  { name := "A", tableKey := "a", attrs := ["id"], rels := [c2relM2O], done := [] }

/-- State for the many-to-one witness. -/
def c1st2 : DBState := { classes := [c1clsA2, wClsB], metadata := [tblA, tblB] }

/-- Witness for C1: one concrete handler run per direction. -/
theorem c1_witness :
    (∃ st' tbl2, declare_first_relationships_handler c1st "A" = .ok st' ∧
      tablesGet st'.metadata wClsB.tableKey = some tbl2 ∧
      tbl2.columns = tblB.columns ++ tblA.primaryKey.map (mkFkCol "a" "_" true) ∧
      tbl2.constraints = tblB.constraints ++
        [{ columns := tblA.primaryKey.map (fkColName "a")
           refTable := tblA.name
           refColumns := tblA.primaryKey.map Column.name
           kwargs := [] }]) ∧
    (∃ st' tbl2, declare_first_relationships_handler c1st2 "A" = .ok st' ∧
      tablesGet st'.metadata c1clsA2.tableKey = some tbl2 ∧
      tbl2.columns = tblA.columns ++ tblB.primaryKey.map (mkFkCol "b" "_" true) ∧
      tbl2.constraints = tblA.constraints ++
        [{ columns := tblB.primaryKey.map (fkColName "b")
           refTable := tblB.name
           refColumns := tblB.primaryKey.map Column.name
           kwargs := [] }]) ∧
    (∃ st' T, declare_first_relationships_handler c7st "A" = .ok st' ∧
      st'.metadata = c7st.metadata ++ [T] ∧ T.name = "assoc") := by
  refine ⟨?_, ?_, ?_⟩
  · exact c1_handler_dispatch.1 c1st "A" "B" c1clsA wClsB c1rO2M tblA tblB
      "_" "a" true [] (by decide) (by decide) (by decide) (by decide) (by decide)
      (by decide) (by decide) (by decide) (by decide) (by decide) (by decide)
      (by decide) (by decide) (by decide)
  · exact c1_handler_dispatch.2.1 c1st2 "A" "B" c1clsA2 wClsB c2relM2O tblA tblB
      "_" "b" true [] (by decide) (by decide) (by decide) (by decide) (by decide)
      (by decide) (by decide) (by decide) (by decide) (by decide) (by decide)
      (by decide) (by decide)
  · exact c1_handler_dispatch.2.2 c7st "A" "B" "assoc" c7clsA c7clsB c7r1 tblA tblB
      (by decide) (by decide) (by decide) (by decide) (by decide) (by decide)
      (by decide) (by decide) (by decide) (by decide) (by decide) (by decide)
      (by decide) (by decide)


/-! ### Claim C6: evaluation only registers the pending relation -/

theorem find_unique_class (cs : List ModelClass) (n : String) (c : ModelClass)
    (hnd : (cs.map ModelClass.name).Nodup)
    (hget : cs.find? (fun x => x.name = n) = some c)
    (x : ModelClass) (hx : x ∈ cs) (hxn : x.name = n) : x = c := by
  induction cs with
  | nil => simp at hx
  | cons y cs ih =>
    rw [List.map_cons] at hnd
    have hnd2 := List.nodup_cons.mp hnd
    by_cases hy : y.name = n
    · rw [List.find?_cons, show (decide (y.name = n) = true) by simp [hy]] at hget
      injection hget with hyc
      rcases List.mem_cons.mp hx with h | h
      · exact h.trans hyc
      · have hmem : y.name ∈ cs.map ModelClass.name := by
          rw [hy, ← hxn]
          exact List.mem_map_of_mem ModelClass.name h
        exact absurd hmem hnd2.1
    · rw [List.find?_cons, show (decide (y.name = n) = false) by simp [hy]] at hget
      rcases List.mem_cons.mp hx with h | h
      · exact absurd (h ▸ hxn) hy
      · exact ih hnd2.2 hget h

/-- Appending a pending relation to one class changes nothing else: metadata
is untouched and every class keeps its name, table, attributes and resolved
relations. -/
theorem setClass_append_frame (st : DBState) (clsName : String)
    (cls cls1 : ModelClass) (rel : Relation)
    (hnd : (st.classes.map ModelClass.name).Nodup)
    (hget : st.getClass clsName = some cls)
    (hcls1 : cls1 = { cls with rels := cls.rels ++ [rel] }) :
    (st.setClass cls1).metadata = st.metadata ∧
    (st.setClass cls1).getClass clsName = some cls1 ∧
    List.Forall₂ (fun y x => x.name = y.name ∧ x.tableKey = y.tableKey ∧
      x.attrs = y.attrs ∧ x.done = y.done ∧
      (x.rels = y.rels ∨ x.rels = y.rels ++ [rel]))
      st.classes (st.setClass cls1).classes := by
  have hname : cls.name = clsName := getClass_name st clsName cls hget
  refine ⟨rfl, ?_, ?_⟩
  · exact getClass_setClass_self st cls1 clsName (by rw [hget]; rfl)
      (by rw [hcls1]; exact hname)
  · show List.Forall₂ _ st.classes
      (st.classes.map (fun x => if x.name = cls1.name then cls1 else x))
    apply forall₂_self_map
    intro x hx
    by_cases hxn : x.name = cls1.name
    · have hxe : x = cls := by
        refine find_unique_class st.classes clsName cls hnd hget x hx ?_
        rw [hxn, hcls1]
        exact hname
      rw [if_pos hxn, hcls1, hxe]
      exact ⟨rfl, rfl, rfl, rfl, Or.inr rfl⟩
    · rw [if_neg hxn]
      exact ⟨rfl, rfl, rfl, rfl, Or.inl rfl⟩

/-- C6: evaluating the declarative attribute of any of the three builders
performs no schema mutation — the metadata (tables, columns, constraints) is
unchanged, and every class keeps its name, table key, attributes and resolved
relations — the evaluation only records the built relationship in the
declaring class's pending set. -/
theorem c6_lazy_evaluation_frame :
    (∀ (st : DBState) (clsName key remote : String) (kw : Kwargs) (st1 : DBState),
      (st.classes.map ModelClass.name).Nodup →
      declareAttrOneToMany st clsName key remote kw = .ok st1 →
      st1.metadata = st.metadata ∧
      (∃ cls, st.getClass clsName = some cls ∧
        st1.getClass clsName =
          some { cls with rels := cls.rels ++ [(o2m_eval key remote kw cls).2] }) ∧
      List.Forall₂ (fun y x => x.name = y.name ∧ x.tableKey = y.tableKey ∧
        x.attrs = y.attrs ∧ x.done = y.done ∧
        (x.rels = y.rels ∨ ∃ r, x.rels = y.rels ++ [r])) st.classes st1.classes) ∧
    (∀ (st : DBState) (clsName key remote : String) (kw : Kwargs) (st1 : DBState),
      (st.classes.map ModelClass.name).Nodup →
      declareAttrManyToOne st clsName key remote kw = .ok st1 →
      st1.metadata = st.metadata ∧
      (∃ cls, st.getClass clsName = some cls ∧
        st1.getClass clsName =
          some { cls with rels := cls.rels ++ [(m2o_eval key remote kw cls).2] }) ∧
      List.Forall₂ (fun y x => x.name = y.name ∧ x.tableKey = y.tableKey ∧
        x.attrs = y.attrs ∧ x.done = y.done ∧
        (x.rels = y.rels ∨ ∃ r, x.rels = y.rels ++ [r])) st.classes st1.classes) ∧
    (∀ (st : DBState) (clsName key remote : String) (tn : Option String)
      (kw : Kwargs) (st1 : DBState),
      (st.classes.map ModelClass.name).Nodup →
      declareAttrManyToMany st clsName key remote tn kw = .ok st1 →
      st1.metadata = st.metadata ∧
      (∃ cls rel, st.getClass clsName = some cls ∧
        m2m_eval key remote tn kw cls = .ok ({ cls with rels := cls.rels ++ [rel] }, rel) ∧
        st1.getClass clsName = some { cls with rels := cls.rels ++ [rel] }) ∧
      List.Forall₂ (fun y x => x.name = y.name ∧ x.tableKey = y.tableKey ∧
        x.attrs = y.attrs ∧ x.done = y.done ∧
        (x.rels = y.rels ∨ ∃ r, x.rels = y.rels ++ [r])) st.classes st1.classes) := by
  refine ⟨?_, ?_, ?_⟩
  · intro st clsName key remote kw st1 hnd hok
    unfold declareAttrOneToMany at hok
    cases hget : st.getClass clsName with
    | none => rw [hget] at hok; exact absurd hok (by simp)
    | some cls =>
      rw [hget] at hok
      injection hok with h
      subst h
      obtain ⟨h1, h2, h3⟩ := setClass_append_frame st clsName cls
        { cls with rels := cls.rels ++ [(o2m_eval key remote kw cls).2] }
        (o2m_eval key remote kw cls).2 hnd hget rfl
      exact ⟨h1, ⟨cls, rfl, h2⟩,
        h3.imp fun _ _ h => ⟨h.1, h.2.1, h.2.2.1, h.2.2.2.1,
          h.2.2.2.2.imp (fun h => h) (fun h => ⟨_, h⟩)⟩⟩
  · intro st clsName key remote kw st1 hnd hok
    unfold declareAttrManyToOne at hok
    cases hget : st.getClass clsName with
    | none => rw [hget] at hok; exact absurd hok (by simp)
    | some cls =>
      rw [hget] at hok
      injection hok with h
      subst h
      obtain ⟨h1, h2, h3⟩ := setClass_append_frame st clsName cls
        { cls with rels := cls.rels ++ [(m2o_eval key remote kw cls).2] }
        (m2o_eval key remote kw cls).2 hnd hget rfl
      exact ⟨h1, ⟨cls, rfl, h2⟩,
        h3.imp fun _ _ h => ⟨h.1, h.2.1, h.2.2.1, h.2.2.2.1,
          h.2.2.2.2.imp (fun h => h) (fun h => ⟨_, h⟩)⟩⟩
  · intro st clsName key remote tn kw st1 hnd hok
    unfold declareAttrManyToMany at hok
    cases hget : st.getClass clsName with
    | none => rw [hget] at hok; exact absurd hok (by simp)
    | some cls =>
      rw [hget] at hok
      dsimp only at hok
      cases heval : ManyToMany remote tn kw key cls with
      | error e => rw [heval] at hok; exact absurd hok (by simp)
      | ok res =>
        rw [heval] at hok
        dsimp only at hok
        injection hok with h
        subst h
        have heval2 : m2m_eval key remote tn kw cls = .ok res := heval
        unfold m2m_eval at heval2
        by_cases hc : (kw.secondaryGiven.isNone && tn.isNone) = true
        · rw [if_pos hc] at heval2
          exact absurd heval2 (by simp)
        · rw [if_neg hc] at heval2
          obtain ⟨c1, r1⟩ := res
          injection heval2 with hpair
          injection hpair with hcls hrel
          subst hcls
          subst hrel
          obtain ⟨h1, h2, h3⟩ := setClass_append_frame st clsName cls _ _ hnd hget rfl
          refine ⟨h1, ⟨cls, _, rfl, ?_, h2⟩,
            h3.imp fun _ _ h => ⟨h.1, h.2.1, h.2.2.1, h.2.2.2.1,
              h.2.2.2.2.imp (fun h => h) (fun h => ⟨_, h⟩)⟩⟩
          show m2m_eval key remote tn kw cls = _
          unfold m2m_eval
          rw [if_neg hc]


/-- Witness for C6 at a concrete attribute evaluation. -/
theorem c6_witness :
    ∃ st1, declareAttrOneToMany wSt "A" "bs" "B" wKw = .ok st1 ∧
      st1.metadata = wSt.metadata ∧
      ∃ cls, wSt.getClass "A" = some cls ∧
        st1.getClass "A" =
          some { cls with rels := cls.rels ++ [(o2m_eval "bs" "B" wKw cls).2] } := by
  cases heval : declareAttrOneToMany wSt "A" "bs" "B" wKw with
  | error e =>
    have hok : (declareAttrOneToMany wSt "A" "bs" "B" wKw).toOption.isSome = true := by
      decide
    rw [heval] at hok
    simp [Except.toOption] at hok
  | ok st1 =>
    have h := c6_lazy_evaluation_frame.1 wSt "A" "bs" "B" wKw st1 (by decide) heval
    exact ⟨st1, rfl, h.1, h.2.1⟩


/-! ### Claim C5: resolution only synthesizes what is missing -/

/-- C5 (amended: when the attribute exists but the column does not, the
column lookup raises `KeyError` instead of reusing anything): when every
generated foreign-key column name already exists in the target table the
state is unchanged and the existing columns are reused; when the relation
already has a secondary, or a table under the given name already exists in
the metadata, that table is reused and none is created; and the handler
clears the pending set, so a second run on the same class changes nothing. -/
theorem c5_only_missing_artifacts :
    (∀ (st : DBState) (clsName parentName : String) (rel : Relation)
      (cls parent : ModelClass) (clsTable parentTable : Table)
      (fkPre fkKey : String) (nul : Bool) (fkkw : Dict),
      st.getClass clsName = some cls →
      st.getClass parentName = some parent →
      tablesGet st.metadata cls.tableKey = some clsTable →
      tablesGet st.metadata parent.tableKey = some parentTable →
      fkOptions rel parent.name = (fkPre, nul, fkKey, fkkw) →
      (∀ pk ∈ parentTable.primaryKey, clsTable.hasCol (fkColName fkKey pk) = true) →
      (st.metadata.map Table.key).Nodup →
      (st.classes.map ModelClass.name).Nodup →
      ∃ fks, _add_foreign_keys st clsName parentName rel =
          .ok (st, { rel with userFKs := fks }) ∧
        fks.length = parentTable.primaryKey.length ∧
        ∀ c ∈ fks, c ∈ clsTable.columns) ∧
    (∀ (st : DBState) (clsName parentName : String) (rel : Relation)
      (cls parent : ModelClass) (clsTable parentTable : Table)
      (fkPre fkKey : String) (nul : Bool) (fkkw : Dict) (pk : Column)
      (rest : List Column),
      st.getClass clsName = some cls →
      st.getClass parentName = some parent →
      tablesGet st.metadata cls.tableKey = some clsTable →
      tablesGet st.metadata parent.tableKey = some parentTable →
      fkOptions rel parent.name = (fkPre, nul, fkKey, fkkw) →
      parentTable.primaryKey = pk :: rest →
      clsTable.hasCol (fkColName fkKey pk) = false →
      hasAttr cls.attrs (fkAttrName fkPre fkKey pk) = true →
      _add_foreign_keys st clsName parentName rel = .error "KeyError") ∧
    (∀ (st : DBState) (clsName childName : String) (rel : Relation),
      rel.secondary.isSome = true →
      _add_association_table st clsName childName rel = .ok (st, rel)) ∧
    (∀ (st : DBState) (clsName childName : String) (rel : Relation) (t : Table)
      (tn : String),
      rel.secondary = none →
      dGet rel.info "table_name" = some (.vstr tn) →
      tablesGet st.metadata tn = some t →
      _add_association_table st clsName childName rel =
        .ok (st, { rel with secondary := some t })) ∧
    (∀ (st st1 : DBState) (clsName : String),
      declare_first_relationships_handler st clsName = .ok st1 →
      (∃ c1, st1.getClass clsName = some c1 ∧ c1.rels = []) ∧
      declare_first_relationships_handler st1 clsName = .ok st1) := by
  refine ⟨?_, ?_, ?_, ?_, ?_⟩
  · intro st clsName parentName rel cls parent clsTable parentTable
      fkPre fkKey nul fkkw hcls hparent hct hpt hopts hall hmdnd hclsnd
    exact addFK_reuse st clsName parentName rel cls parent clsTable parentTable
      fkPre fkKey nul fkkw hcls hparent hct hpt hopts hall hmdnd hclsnd
  · intro st clsName parentName rel cls parent clsTable parentTable
      fkPre fkKey nul fkkw pk rest hcls hparent hct hpt hopts hpks hnc hattr
    exact addFK_keyerror st clsName parentName rel cls parent clsTable parentTable
      fkPre fkKey nul fkkw pk rest hcls hparent hct hpt hopts hpks hnc hattr
  · intro st clsName childName rel h
    exact assoc_skip_secondary st clsName childName rel h
  · intro st clsName childName rel t tn hsec htn hfound
    exact assoc_reuse_table st clsName childName rel t tn hsec htn hfound
  · intro st st1 clsName hok
    obtain ⟨cls, stmid, resolved, c1, hget, hres, hc1, hst1⟩ :=
      handler_inv st clsName st1 hok
    have hc1name : c1.name = clsName := getClass_name stmid clsName c1 hc1
    have hget1 : st1.getClass clsName =
        some { c1 with rels := [], done := c1.done ++ resolved } := by
      rw [hst1]
      exact getClass_setClass_self stmid _ clsName (by rw [hc1]; rfl) hc1name
    refine ⟨⟨_, hget1, rfl⟩, ?_⟩
    unfold declare_first_relationships_handler
    rw [hget1]
    dsimp only
    rw [show resolveAll clsName st1 [] = .ok (st1, []) from rfl]
    dsimp only
    rw [hget1]
    dsimp only
    rw [List.append_nil]
    rw [hst1, setClass_idem]


/-- A foreign-key column already present in the declaring table. -/
def bIdCol : Column :=
  { name := "b_id", ctype := "Integer", nullable := true, primaryKey := false,
    attrKey := "_b_id" }

/-- The declaring table already holding the generated column name. -/
def tblA2 : Table :=
  { name := "a", schema := none, columns := [pkId, bIdCol], constraints := [], kwargs := [] }

/-- Declaring class whose table already holds `b_id`. -/
def c5clsR : ModelClass :=
  { name := "A", tableKey := "a", attrs := ["id", "_b_id"], rels := [], done := [] }

/-- Reuse-scenario state. -/
def c5stR : DBState := { classes := [c5clsR, wClsB], metadata := [tblA2, tblB] }

/-- Declaring class holding the attribute `_b_id` while its table lacks the
column `b_id`. -/
def c5clsK : ModelClass :=
  { name := "A", tableKey := "a", attrs := ["id", "_b_id"], rels := [c2relM2O],
    done := [] }

/-- KeyError-scenario state. -/
def c5stK : DBState := { classes := [c5clsK, wClsB], metadata := [tblA, tblB] }

/-- An empty association table already present in the metadata. -/
def tblAB : Table :=
  { name := "a_b", schema := none, columns := [], constraints := [], kwargs := [] }

/-- State already holding the association table. -/
def c5stAB : DBState := { classes := [wCls, wClsB], metadata := [tblA, tblB, tblAB] }

/-- Witness for C5 at concrete reuse, error, skip, table-reuse and
second-run scenarios. -/
theorem c5_witness :
    (∃ fks, _add_foreign_keys c5stR "A" "B" c2relM2O =
        .ok (c5stR, { c2relM2O with userFKs := fks }) ∧
      fks.length = tblB.primaryKey.length ∧ ∀ c ∈ fks, c ∈ tblA2.columns) ∧
    _add_foreign_keys c5stK "A" "B" c2relM2O = .error "KeyError" ∧
    _add_association_table wSt "A" "B" { c3relAB with secondary := some tblB } =
      .ok (wSt, { c3relAB with secondary := some tblB }) ∧
    _add_association_table c5stAB "A" "B" c3relAB =
      .ok (c5stAB, { c3relAB with secondary := some tblAB }) ∧
    ∃ st1, declare_first_relationships_handler c1st "A" = .ok st1 ∧
      (∃ c1, st1.getClass "A" = some c1 ∧ c1.rels = []) ∧
      declare_first_relationships_handler st1 "A" = .ok st1 := by
  refine ⟨?_, ?_, ?_, ?_, ?_⟩
  · exact c5_only_missing_artifacts.1 c5stR "A" "B" c2relM2O c5clsR wClsB tblA2 tblB
      "_" "b" true [] (by decide) (by decide) (by decide) (by decide) (by decide)
      (by decide) (by decide) (by decide)
  · exact c5_only_missing_artifacts.2.1 c5stK "A" "B" c2relM2O c5clsK wClsB tblA tblB
      "_" "b" true [] pkId [] (by decide) (by decide) (by decide) (by decide)
      (by decide) (by decide) (by decide) (by decide)
  · exact c5_only_missing_artifacts.2.2.1 wSt "A" "B"
      { c3relAB with secondary := some tblB } (by decide)
  · exact c5_only_missing_artifacts.2.2.2.1 c5stAB "A" "B" c3relAB tblAB "a_b"
      (by decide) (by decide) (by decide)
  · cases heval : declare_first_relationships_handler c1st "A" with
    | error e =>
      have hok : (declare_first_relationships_handler c1st "A").toOption.isSome =
          true := by decide
      rw [heval] at hok
      simp [Except.toOption] at hok
    | ok st1 =>
      have h := c5_only_missing_artifacts.2.2.2.2 c1st st1 "A" heval
      exact ⟨st1, rfl, h.1, h.2⟩

/-- Counterexample to C5 as stated: the attribute `_b_id` exists on the class
while its table lacks the column `b_id`; the claim predicts the existing
column is reused, but resolution raises `KeyError` — there is no column to
reuse. -/
theorem c5_counterexample :
    declare_first_relationships_handler c5stK "A" = .error "KeyError" ∧
    ∀ st', declare_first_relationships_handler c5stK "A" ≠ .ok st' := by
  have h : declare_first_relationships_handler c5stK "A" = .error "KeyError" := by
    decide
  refine ⟨h, ?_⟩
  intro st' hc
  rw [h] at hc
  exact Except.noConfusion hc


/-! ### Claim C9: constraints pair columns positionally -/

theorem forall₂_map_pair2 {α β γ : Type} (r : α → γ → Prop) (l : List (α × β))
    (g : α × β → γ) (h : ∀ p ∈ l, r p.1 (g p)) :
    List.Forall₂ r (l.map Prod.fst) (l.map g) := by
  induction l with
  | nil => exact List.Forall₂.nil
  | cons p ps ih =>
    exact List.Forall₂.cons (h p (by simp)) (ih fun q hq => h q (by simp [hq]))

/-- Inversion of a successful `_add_foreign_keys` run. -/
theorem addFK_inv (st : DBState) (clsName parentName : String) (rel : Relation)
    (cls parent : ModelClass) (clsTable parentTable : Table)
    (fkPre fkKey : String) (nul : Bool) (fkkw : Dict) (st1 : DBState) (rel1 : Relation)
    (hcls : st.getClass clsName = some cls)
    (hparent : st.getClass parentName = some parent)
    (hct : tablesGet st.metadata cls.tableKey = some clsTable)
    (hpt : tablesGet st.metadata parent.tableKey = some parentTable)
    (hopts : fkOptions rel parent.name = (fkPre, nul, fkKey, fkkw))
    (hok : _add_foreign_keys st clsName parentName rel = .ok (st1, rel1)) :
    ∃ tbl1 attrs1 cols created,
      fkLoop fkKey fkPre nul clsTable cls.attrs [] false parentTable.primaryKey =
        .ok (tbl1, attrs1, cols, created) ∧
      rel1 = { rel with userFKs := cols.map (fun p => p.2) } ∧
      st1 = (st.setTable cls.tableKey
          (if created = true then
            { tbl1 with constraints := tbl1.constraints ++
              [{ columns := cols.map (fun p => p.2.name)
                 refTable := parentTable.name
                 refColumns := cols.map (fun p => p.1.name)
                 kwargs := fkkw }] }
          else tbl1)).setClass { cls with attrs := attrs1 } := by
  unfold _add_foreign_keys at hok
  rw [hcls, hparent] at hok
  dsimp only at hok
  rw [hct, hpt] at hok
  dsimp only at hok
  rw [hopts] at hok
  dsimp only at hok
  cases hloop : fkLoop fkKey fkPre nul clsTable cls.attrs [] false
      parentTable.primaryKey with
  | error e =>
    rw [hloop] at hok
    exact absurd hok (by simp)
  | ok out =>
    obtain ⟨tbl1, attrs1, cols, created⟩ := out
    rw [hloop] at hok
    dsimp only at hok
    injection hok with hpair
    injection hpair with hst hrel
    exact ⟨tbl1, attrs1, cols, created, rfl, hrel.symm, hst.symm⟩

/-- C9: every generated `ForeignKeyConstraint` pairs its columns positionally
with the referenced primary key — the i-th constrained column carries the
name generated from the i-th referenced primary-key column, and the i-th
referenced column is that primary-key column — both for the foreign keys
added by `_add_foreign_keys` (also on the recorded
`_user_defined_foreign_keys`) and for the per-side constraints of the
generated association table. -/
theorem c9_positional_pairing :
    (∀ (st : DBState) (clsName parentName : String) (rel : Relation)
      (cls parent : ModelClass) (clsTable parentTable : Table)
      (fkPre fkKey : String) (nul : Bool) (fkkw : Dict)
      (st1 : DBState) (rel1 : Relation),
      st.getClass clsName = some cls →
      st.getClass parentName = some parent →
      tablesGet st.metadata cls.tableKey = some clsTable →
      tablesGet st.metadata parent.tableKey = some parentTable →
      fkOptions rel parent.name = (fkPre, nul, fkKey, fkkw) →
      _add_foreign_keys st clsName parentName rel = .ok (st1, rel1) →
      List.Forall₂ (fun pk c => c.name = fkColName fkKey pk)
        parentTable.primaryKey rel1.userFKs ∧
      ∀ tbl2, tablesGet st1.metadata cls.tableKey = some tbl2 →
        tbl2.constraints = clsTable.constraints ∨
        ∃ con, tbl2.constraints = clsTable.constraints ++ [con] ∧
          List.Forall₂ (fun pk cn => cn = fkColName fkKey pk)
            parentTable.primaryKey con.columns ∧
          con.refColumns = parentTable.primaryKey.map Column.name ∧
          con.refTable = parentTable.name) ∧
    (∀ (st : DBState) (clsName childName : String) (rel : Relation)
      (cls child : ModelClass) (clsTable childTable : Table) (tn : String),
      rel.secondary = none →
      dGet rel.info "table_name" = some (.vstr tn) →
      tablesGet st.metadata tn = none →
      st.getClass clsName = some cls →
      st.getClass childName = some child →
      tablesGet st.metadata cls.tableKey = some clsTable →
      tablesGet st.metadata child.tableKey = some childTable →
      clsTable.key ≠ childTable.key →
      clsTable.primaryKey ≠ [] →
      childTable.primaryKey ≠ [] →
      tablesGet st.metadata
        (buildAssocTable tn clsTable.schema (stripKeys rel.info "fk_" 3)
          (dDrop (stripKeys rel.info "table_" 6) "name")
          [(clsTable, clsTable.primaryKey.map (assocCol clsTable)),
           (childTable, childTable.primaryKey.map (assocCol childTable))]).key = none →
      ∃ T cA cB,
        _add_association_table st clsName childName rel = .ok
          ({ st with metadata := st.metadata ++ [T] },
            { rel with secondary := some T }) ∧
        T.constraints = [cA, cB] ∧
        List.Forall₂ (fun pk cn => cn = (assocCol clsTable pk).name)
          clsTable.primaryKey cA.columns ∧
        cA.refColumns = clsTable.primaryKey.map Column.name ∧
        cA.refTable = clsTable.name ∧
        List.Forall₂ (fun pk cn => cn = (assocCol childTable pk).name)
          childTable.primaryKey cB.columns ∧
        cB.refColumns = childTable.primaryKey.map Column.name ∧
        cB.refTable = childTable.name) := by
  constructor
  · intro st clsName parentName rel cls parent clsTable parentTable
      fkPre fkKey nul fkkw st1 rel1 hcls hparent hct hpt hopts hok
    obtain ⟨tbl1, attrs1, cols, created, hloop, hrel1, hst1⟩ :=
      addFK_inv st clsName parentName rel cls parent clsTable parentTable
        fkPre fkKey nul fkkw st1 rel1 hcls hparent hct hpt hopts hok
    obtain ⟨pairs, hc1, hmap, hnames⟩ :=
      fkLoop_pairs fkKey fkPre nul parentTable.primaryKey clsTable cls.attrs [] false
        (tbl1, attrs1, cols, created) hloop
    have hcols : pairs = cols := by
      have h2 : cols = pairs := by simpa using hc1
      exact h2.symm
    subst hcols
    have hframe := fkLoop_frame fkKey fkPre nul parentTable.primaryKey clsTable
      cls.attrs [] false (tbl1, attrs1, pairs, created) hloop
    constructor
    · rw [hrel1]
      show List.Forall₂ _ parentTable.primaryKey (pairs.map (fun p => p.2))
      rw [← hmap]
      exact forall₂_map_pair2 _ pairs (fun p => p.2) (fun p hp => hnames p hp)
    · intro tbl2 hget2
      have hkey1 : tbl1.key = clsTable.key := by
        unfold Table.key
        rw [hframe.1, hframe.2.1]
      have hkeyIf : (if created = true then
          { tbl1 with constraints := tbl1.constraints ++
            [{ columns := pairs.map (fun p => p.2.name)
               refTable := parentTable.name
               refColumns := pairs.map (fun p => p.1.name)
               kwargs := fkkw }] }
          else tbl1).key = cls.tableKey := by
        cases created with
        | true =>
          rw [if_pos rfl]
          show tbl1.key = cls.tableKey
          rw [hkey1]
          exact tablesGet_key st.metadata cls.tableKey clsTable hct
        | false =>
          rw [if_neg (by simp)]
          rw [hkey1]
          exact tablesGet_key st.metadata cls.tableKey clsTable hct
      have hget3 : tablesGet st1.metadata cls.tableKey = some (if created = true then
          { tbl1 with constraints := tbl1.constraints ++
            [{ columns := pairs.map (fun p => p.2.name)
               refTable := parentTable.name
               refColumns := pairs.map (fun p => p.1.name)
               kwargs := fkkw }] }
          else tbl1) := by
        rw [hst1]
        show tablesGet (st.metadata.map _) cls.tableKey = _
        exact tablesGet_replace_self st.metadata cls.tableKey _ (by rw [hct]; rfl) hkeyIf
      rw [hget2] at hget3
      injection hget3 with htbl2
      subst htbl2
      cases created with
      | false =>
        left
        rw [if_neg (by simp)]
        exact hframe.2.2.1
      | true =>
        right
        rw [if_pos rfl]
        refine ⟨_, by rw [hframe.2.2.1], ?_, ?_, rfl⟩
        · show List.Forall₂ _ parentTable.primaryKey (pairs.map (fun p => p.2.name))
          rw [← hmap]
          exact forall₂_map_pair2 _ pairs (fun p => p.2.name) (fun p hp => hnames p hp)
        · show pairs.map (fun p => p.1.name) = parentTable.primaryKey.map Column.name
          rw [← hmap, List.map_map]
          rfl
  · intro st clsName childName rel cls child clsTable childTable tn
      hsec htn hmiss hcls hchild hct hcht hkne hp1 hp2 hfresh
    refine ⟨buildAssocTable tn clsTable.schema (stripKeys rel.info "fk_" 3)
        (dDrop (stripKeys rel.info "table_" 6) "name")
        [(clsTable, clsTable.primaryKey.map (assocCol clsTable)),
         (childTable, childTable.primaryKey.map (assocCol childTable))],
      _, _,
      assoc_create st clsName childName rel cls child clsTable childTable tn
        hsec htn hmiss hcls hchild hct hcht hkne hp1 hp2 hfresh,
      rfl, ?_, rfl, rfl, ?_, rfl, rfl⟩
    · show List.Forall₂ _ clsTable.primaryKey
        ((clsTable.primaryKey.map (assocCol clsTable)).map Column.name)
      rw [List.map_map]
      exact forall₂_self_map _ _ _ (fun pk _ => rfl)
    · show List.Forall₂ _ childTable.primaryKey
        ((childTable.primaryKey.map (assocCol childTable)).map Column.name)
      rw [List.map_map]
      exact forall₂_self_map _ _ _ (fun pk _ => rfl)


/-- Witness for C9 at concrete foreign-key and association-table runs. -/
theorem c9_witness :
    (∃ st1 rel1, _add_foreign_keys wSt "A" "B" c2relM2O = .ok (st1, rel1) ∧
      List.Forall₂ (fun pk c => c.name = fkColName "b" pk)
        tblB.primaryKey rel1.userFKs) ∧
    (∃ T cA cB,
      _add_association_table wSt "A" "B" c3relAB = .ok
        ({ wSt with metadata := wSt.metadata ++ [T] },
          { c3relAB with secondary := some T }) ∧
      T.constraints = [cA, cB] ∧
      List.Forall₂ (fun pk cn => cn = (assocCol tblA pk).name)
        tblA.primaryKey cA.columns ∧
      List.Forall₂ (fun pk cn => cn = (assocCol tblB pk).name)
        tblB.primaryKey cB.columns) := by
  constructor
  · cases heval : _add_foreign_keys wSt "A" "B" c2relM2O with
    | error e =>
      have hok : (_add_foreign_keys wSt "A" "B" c2relM2O).toOption.isSome = true := by
        decide
      rw [heval] at hok
      simp [Except.toOption] at hok
    | ok p =>
      have h := c9_positional_pairing.1 wSt "A" "B" c2relM2O wCls wClsB tblA tblB
        "_" "b" true [] p.1 p.2 (by decide) (by decide) (by decide) (by decide)
        (by decide) (by rw [heval])
      exact ⟨p.1, p.2, rfl, h.1⟩
  · obtain ⟨T, cA, cB, h1, h2, h3, h4, h5, h6, h7, h8⟩ :=
      c9_positional_pairing.2 wSt "A" "B" c3relAB wCls wClsB tblA tblB "a_b"
        (by decide) (by decide) (by decide) (by decide) (by decide) (by decide)
        (by decide) (by decide) (by decide) (by decide) (by decide)
    exact ⟨T, cA, cB, h1, h2, h3, h6⟩

end DjangoSorcery
